import Mathlib

/-!
# Lesson-progress server (`server.js`)

A shallow embedding of the Express handlers of `server.js` and the properties
of its completion-tracking logic.

Modelling conventions.

* The module variable `data` is passed explicitly: every handler takes the
  current `Data` and returns the HTTP response together with the next `Data`.
  A handler is one atomic step (requests are taken one after the other).
* `saveData()` only writes `data` to disk and swallows its own errors; it never
  changes `data` and is left out.
* Timestamps are integers (milliseconds since the epoch).  `startDate` is
  stored as `new Date().toISOString()` and read back with
  `new Date(user.startDate).getTime()`; that round trip is exact on
  milliseconds, so the field holds the millisecond value itself.
* `dayNum` is the value of `parseInt(day, 10)`; it ranges over the integers
  (negative numbers and zero included).  The `NaN` that `parseInt` returns for
  a path segment without digits is not an integer day and is not modelled.
* A JavaScript object is modelled by the map of its own properties; the order
  in which properties are enumerated is not modelled.
-/

namespace Server

/-! ## Data model -/

/-- A user record as built by `POST /api/users`:
`{ uuid, name, startDate, completed }`. -/
structure User where
  uuid : String
  name : String
  startDate : Int
  completed : List Int
deriving DecidableEq

/-- The property names every plain JavaScript object inherits from
`Object.prototype`.  `data.users` is created by an object literal (or by
`JSON.parse`), so a read `data.users[k]` of a name that is not an own property
falls through to these. -/
def objectPrototypeNames : List String :=
  ["constructor", "__defineGetter__", "__defineSetter__", "hasOwnProperty",
   "__lookupGetter__", "__lookupSetter__", "isPrototypeOf", "propertyIsEnumerable",
   "toString", "valueOf", "__proto__", "toLocaleString"]

/-- Own property names of `data.users`.  They are user identifiers; the names of
the members of `Object.prototype` are never used as identifiers. -/
abbrev UserKey := {k : String // k ∉ objectPrototypeNames}

/-- The module variable `data`: `users` maps an identifier to its user record,
`globalCounts` maps a day number to its counter.  `none` is an absent
property. -/
structure Data where
  users : UserKey → Option User
  globalCounts : Int → Option Nat

/-- The initial value `{ users: {}, globalCounts: {} }`. -/
def initialData : Data := ⟨fun _ => none, fun _ => none⟩

/-- The value of the property read `data.users[uuid]`. -/
inductive UserSlot where
  /-- no own property and nothing inherited -/
  | undefined
  /-- an own property: a user record -/
  | own (user : User)
  /-- a member of `Object.prototype` (a function, or the prototype object
  itself): truthy, and without `startDate` or `completed` fields -/
  | inherited (name : String)
deriving DecidableEq

/-- The property read `data.users[uuid]`. -/
def getUserProp (data : Data) (uuid : String) : UserSlot :=
  if h : uuid ∈ objectPrototypeNames then .inherited uuid
  else match data.users ⟨uuid, h⟩ with
    | some user => .own user
    | none => .undefined

/-- The assignment `data.users[uuid] = user` (also the effect of mutating the
record stored under `uuid` in place). -/
def setUser (data : Data) (uuid : String) (user : User) : Data :=
  { data with users := fun k => if k.1 = uuid then some user else data.users k }

/-- The statement `delete data.users[uuid]`: removes an own property, and does
nothing when there is none. -/
def removeUser (data : Data) (uuid : String) : Data :=
  { data with users := fun k => if k.1 = uuid then none else data.users k }

/-- The expression `data.globalCounts[dayNum] || 0`. -/
def countOrZero (data : Data) (dayNum : Int) : Nat :=
  (data.globalCounts dayNum).getD 0

/-- The assignment `data.globalCounts[dayNum] = value`. -/
def setCount (data : Data) (dayNum : Int) (value : Nat) : Data :=
  { data with globalCounts := fun d => if d = dayNum then some value else data.globalCounts d }

/-- What a handler sends back. -/
inductive Response where
  /-- `res.json(user)` -/
  | userJson (user : User)
  /-- `res.status(status).json({ error })` -/
  | error (status : Nat) (error : String)
  /-- `res.json({ message, globalCount })` -/
  | completion (message : String) (globalCount : Nat)
  /-- `res.json({ day, count })` -/
  | dayCount (day : Int) (count : Nat)
  /-- `res.json({ message })` -/
  | message (message : String)
  /-- `res.json(v)` for an inherited member `v` of `Object.prototype` -/
  | inheritedJson (name : String)
  /-- the handler threw a `TypeError`; no JSON answer is produced -/
  | typeError
deriving DecidableEq

/-! ## `generateUUID` -/

/-- The template string of `generateUUID`. -/
def uuidTemplate : List Char := "xxxxxxxx-xxxx-4xxx-yxxx-xxxxxxxxxxxx".toList

/-- `v.toString(16)` for `0 ≤ v < 16`. -/
def hexDigit (v : Nat) : Char :=
  if v < 10 then Char.ofNat (48 + v) else Char.ofNat (87 + v)

/-- The `replace(/[xy]/g, callback)` loop: every `x` or `y` is replaced by the
digit computed from the next draw `r = Math.random() * 16 | 0`; `i` counts the
draws made so far. -/
def replaceXY (rnd : Nat → Fin 16) : List Char → Nat → List Char
  | [], _ => []
  | c :: cs, i =>
    if c = 'x' ∨ c = 'y' then
      let r := (rnd i).val
      let v := if c = 'x' then r else (r &&& 0x3 ||| 0x8)
      hexDigit v :: replaceXY rnd cs (i + 1)
    else c :: replaceXY rnd cs i

/-- `generateUUID()`, with `rnd i` the value of the `i`-th draw. -/
def generateUUID (rnd : Nat → Fin 16) : String :=
  String.mk (replaceXY rnd uuidTemplate 0)

/-! ## `String.prototype.trim` -/

/-- The code points `trim` strips: ECMAScript `WhiteSpace` and
`LineTerminator`. -/
def isWhiteSpace (c : Char) : Bool :=
  let n := c.toNat
  n = 0x09 || n = 0x0A || n = 0x0B || n = 0x0C || n = 0x0D || n = 0x20 || n = 0xA0 ||
  n = 0x1680 || (0x2000 ≤ n && n ≤ 0x200A) || n = 0x2028 || n = 0x2029 || n = 0x202F ||
  n = 0x205F || n = 0x3000 || n = 0xFEFF

/-- `s.trim()`. -/
def trim (s : String) : String :=
  String.mk (((s.toList.dropWhile isWhiteSpace).reverse.dropWhile isWhiteSpace).reverse)

/-! ## Handlers -/

/-- `POST /api/users` with body `{ name }`, `name` a string.  `rnd` gives the
draws of `generateUUID`, `now` is the clock read by `new Date()`. -/
def createUser (data : Data) (name : String) (rnd : Nat → Fin 16) (now : Int) :
    Response × Data :=
  if name = "" ∨ trim name = "" then
    (.error 400 "Name is required", data)
  else
    let uuid := generateUUID rnd
    let user : User := { uuid := uuid, name := trim name, startDate := now, completed := [] }
    (.userJson user, setUser data uuid user)

/-- `GET /api/users/:uuid`. -/
def getUser (data : Data) (uuid : String) : Response × Data :=
  match getUserProp data uuid with
  | .undefined => (.error 404 "User not found", data)
  | .own user => (.userJson user, data)
  | .inherited n => (.inheritedJson n, data)

/-- `Math.floor((now - startDate) / 86400000)`. -/
def daysSince (now startDate : Int) : Int :=
  Int.fdiv (now - startDate) 86400000

/-- `1 + daysSince`. -/
def allowedDay (now startDate : Int) : Int :=
  1 + daysSince now startDate

/-- `POST /api/users/:uuid/complete/:day`, with `dayNum = parseInt(day, 10)` and
`now` the value of `Date.now()`.

For an inherited member of `Object.prototype` the guard `!data.users[uuid]`
does not fire, `user.startDate` is `undefined`, so `allowedDay` is `NaN` and
`dayNum > allowedDay` is false; then `user.completed.includes` reads a property
of `undefined` and throws. -/
def completeDay (data : Data) (uuid : String) (dayNum : Int) (now : Int) :
    Response × Data :=
  match getUserProp data uuid with
  | .undefined => (.error 404 "User not found", data)
  | .inherited _ => (.typeError, data)
  | .own user =>
    if dayNum > allowedDay now user.startDate then
      (.error 400 "Lesson not yet available", data)
    else if dayNum ∈ user.completed then
      (.completion "Already completed" (countOrZero data dayNum), data)
    else
      let data1 := setUser data uuid { user with completed := user.completed ++ [dayNum] }
      let data2 := setCount data1 dayNum (countOrZero data1 dayNum + 1)
      (.completion "Lesson completed" (countOrZero data2 dayNum), data2)

/-- `GET /api/global-count/:day`, with `dayNum = parseInt(day, 10)`. -/
def globalCount (data : Data) (dayNum : Int) : Response × Data :=
  (.dayCount dayNum (countOrZero data dayNum), data)

/-- `DELETE /api/users/:uuid`. -/
def deleteUser (data : Data) (uuid : String) : Response × Data :=
  match getUserProp data uuid with
  | .undefined => (.error 404 "User not found", data)
  | _ => (.message "User deleted", removeUser data uuid)

/-! ## Histories of requests -/

/-- One request to the server. -/
inductive Op where
  /-- `POST /api/users` -/
  | createUser (name : String) (rnd : Nat → Fin 16) (now : Int)
  /-- `GET /api/users/:uuid` -/
  | getUser (uuid : String)
  /-- `POST /api/users/:uuid/complete/:day` -/
  | completeDay (uuid : String) (dayNum : Int) (now : Int)
  /-- `GET /api/global-count/:day` -/
  | globalCount (dayNum : Int)
  /-- `DELETE /api/users/:uuid` -/
  | deleteUser (uuid : String)

/-- Dispatch a request to its handler. -/
def handle (data : Data) : Op → Response × Data
  | .createUser name rnd now => createUser data name rnd now
  | .getUser uuid => getUser data uuid
  | .completeDay uuid dayNum now => completeDay data uuid dayNum now
  | .globalCount dayNum => globalCount data dayNum
  | .deleteUser uuid => deleteUser data uuid

/-- The store after serving the requests `ops` in order. -/
def run (data : Data) : List Op → Data
  | [] => data
  | op :: ops => run (handle data op).2 ops

/-- The identifier of the user a request enrols, when it enrols one. -/
def enrolls (data : Data) : Op → Option String
  | .createUser name rnd now =>
    match (createUser data name rnd now).1 with
    | .userJson user => some user.uuid
    | _ => none
  | _ => none

/-- The request ends the life of the user stored under `uuid`: it deletes that
identifier, or enrols a new user under it. -/
def endsLife (data : Data) (uuid : String) (op : Op) : Bool :=
  match op with
  | .deleteUser u => decide (u = uuid)
  | _ => decide (enrolls data op = some uuid)

/-- Day `d` is in the completed list of the user now stored under `uuid`. -/
def hasCompleted (data : Data) (uuid : String) (d : Int) : Bool :=
  match getUserProp data uuid with
  | .own user => decide (d ∈ user.completed)
  | _ => false

/-- Following the user now stored under `uuid` through the requests `ops`, until
it is deleted or replaced: its completed list contains `d` at some point. -/
def everCompleted (uuid : String) (d : Int) : Data → List Op → Bool
  | data, [] => hasCompleted data uuid d
  | data, op :: ops =>
    hasCompleted data uuid d ||
      (!endsLife data uuid op && everCompleted uuid d (handle data op).2 ops)

/-- The number of users enrolled by the requests `ops` (deleted ones included)
whose completed list has at some point contained `d`. -/
def tally (d : Int) : Data → List Op → Nat
  | _, [] => 0
  | data, op :: ops =>
    (match enrolls data op with
      | some uuid => if everCompleted uuid d (handle data op).2 ops then 1 else 0
      | none => 0) + tally d (handle data op).2 ops

/-- The response of a complete-day request that recorded a new completion. -/
def isNewCompletion : Response → Bool
  | .completion message _ => decide (message = "Lesson completed")
  | _ => false

/-- The identifiers that performed a new completion of day `d` while the
requests `ops` were served, in order. -/
def newCompleters (d : Int) : Data → List Op → List String
  | _, [] => []
  | data, op :: ops =>
    (match op with
      | .completeDay uuid dayNum now =>
        if dayNum = d ∧ isNewCompletion (completeDay data uuid dayNum now).1 = true
          then [uuid] else []
      | _ => []) ++ newCompleters d (handle data op).2 ops

/-! ## Auxiliary notions for the tally -/

/-- The user stored under `uuid` has not completed `d` yet, but will during its life. -/
def pending (d : Int) (data : Data) (ops : List Op) (uuid : String) : Bool :=
  !hasCompleted data uuid d && everCompleted uuid d data ops

/-- Every identifier that has a user in `data`, or is generated by a create
request of `ops`, is listed in `ks`. -/
def Covers (ks : List String) (data : Data) (ops : List Op) : Prop :=
  (∀ uuid user, getUserProp data uuid = .own user → uuid ∈ ks) ∧
  (∀ name rnd now, Op.createUser name rnd now ∈ ops → generateUUID rnd ∈ ks)

/-- The identifiers generated by the create requests of `ops`. -/
def generatedIds : List Op → List String
  | [] => []
  | .createUser _ rnd _ :: ops => generateUUID rnd :: generatedIds ops
  | _ :: ops => generatedIds ops

/-! ## Sample stores -/

/-- A user enrolled at time 0 with nothing completed. -/
def sampleUser : User := { uuid := "u1", name := "Ann", startDate := 0, completed := [] }

/-- The store whose only user is `sampleUser`. -/
def sampleData : Data := setUser initialData "u1" sampleUser

/-- A user enrolled at time 0 who has completed day 1. -/
def sampleUserDone : User := { uuid := "u1", name := "Ann", startDate := 0, completed := [1] }

/-- The store whose only user is `sampleUserDone`, with one completion of day 1. -/
def sampleDataDone : Data := setCount (setUser initialData "u1" sampleUserDone) 1 1

/-- Draws that are all zero. -/
def zeroDraws : Nat → Fin 16 := fun _ => 0

/-- Draws that are all one. -/
def oneDraws : Nat → Fin 16 := fun _ => 1

/-- Two users enrol and both complete day 1; the first is deleted in between. -/
def sampleOps : List Op :=
  [.createUser "Ann" zeroDraws 0, .createUser "Bob" oneDraws 0,
   .completeDay "00000000-0000-4000-8000-000000000000" 1 5,
   .deleteUser "00000000-0000-4000-8000-000000000000",
   .completeDay "11111111-1111-4111-9111-111111111111" 1 6]

/-! ## Further notions: all counts, positive days, key sets, identifier shape -/

/-- `GET /api/global-counts`: answers `res.json(data.globalCounts)`. -/
def allCounts (data : Data) : (Int → Option Nat) × Data :=
  (data.globalCounts, data)

/-- The request carries a positive day number (only complete-day requests carry
a day number). -/
def positiveDay : Op → Bool
  | .completeDay _ dayNum _ => decide (1 ≤ dayNum)
  | _ => true

/-- The identifiers that have a user record in `data.users`. -/
def userKeys (data : Data) : Set UserKey :=
  {k | (data.users k).isSome = true}

/-- Every day in every completed list of the store is at least 1. -/
def DaysPositive (data : Data) : Prop :=
  ∀ (k : UserKey) (user : User), data.users k = some user → ∀ d ∈ user.completed, 1 ≤ d

/-- No completed list of the store contains a day twice. -/
def NoDuplicates (data : Data) : Prop :=
  ∀ (k : UserKey) (user : User), data.users k = some user → user.completed.Nodup

/-- A lower-case hexadecimal digit. -/
def isLowerHex (c : Char) : Bool :=
  decide (c ∈ "0123456789abcdef".toList)

/-- A sequence of 31 draws, as the stream `generateUUID` reads (it reads no
further than the 31st draw). -/
def padDraws (draws : Fin 31 → Fin 16) : Nat → Fin 16 :=
  fun i => if h : i < 31 then draws ⟨i, h⟩ else 0

/-- The identifiers `generateUUID` returns over all sequences of 31 draws. -/
def uuidOutputs : Finset String :=
  Finset.univ.image (fun draws : Fin 31 → Fin 16 => generateUUID (padDraws draws))

/-- For every day, the users that currently have it in their completed list are
no more than its counter. -/
def CountsCover (data : Data) : Prop :=
  ∀ (d : Int) (ks : List String), ks.Nodup →
    ks.countP (fun k => hasCompleted data k d) ≤ countOrZero data d

/-- The draws with the 16th one (the one used for `y`) reduced modulo 4: the
identifier depends on that draw through its two low bits only. -/
def normalizeDraws (draws : Fin 31 → Fin 16) : Fin 31 → Fin 16 :=
  fun i => if i = 15 then ⟨(draws 15).val % 4, by omega⟩ else draws i

/-- A second user enrolled at time 0 with nothing completed. -/
def sampleUserTwo : User := { uuid := "u2", name := "Bea", startDate := 0, completed := [] }

/-- The store holding `sampleUser` and `sampleUserTwo`. -/
def sampleTwoUsers : Data := setUser sampleData "u2" sampleUserTwo

/-- Two users enrol with the same draws. -/
def collidingOps : List Op :=
  [.createUser "Ann" zeroDraws 0, .createUser "Bob" zeroDraws 1]

/-- A user enrols and completes day 0. -/
def dayZeroOps : List Op :=
  [.createUser "Ann" zeroDraws 0, .completeDay "00000000-0000-4000-8000-000000000000" 0 0]

/-! ## Basic facts about the model -/

theorem daysSince_eq_ediv (now startDate : Int) :
    daysSince now startDate = (now - startDate) / 86400000 := by
  unfold daysSince
  exact Int.fdiv_eq_ediv _ (by decide)

/-- The integer model of `Math.floor(x / 86400000)` is the floor of the exact
quotient. -/
theorem daysSince_eq_floor (now startDate : Int) :
    daysSince now startDate = ⌊((now - startDate : Int) : ℚ) / 86400000⌋ := by
  rw [daysSince_eq_ediv]
  have h := Rat.floor_intCast_div_natCast (now - startDate) 86400000
  simpa using h.symm

theorem allowedDay_eq_floor (now startDate : Int) :
    allowedDay now startDate = 1 + ⌊((now - startDate : Int) : ℚ) / 86400000⌋ := by
  rw [allowedDay, daysSince_eq_floor]

theorem allowedDay_eq_ediv (now startDate : Int) :
    allowedDay now startDate = 1 + (now - startDate) / 86400000 := by
  rw [allowedDay, daysSince_eq_ediv]

theorem allowedDay_mono {t1 t2 : Int} (startDate : Int) (h : t1 ≤ t2) :
    allowedDay t1 startDate ≤ allowedDay t2 startDate := by
  rw [allowedDay_eq_ediv, allowedDay_eq_ediv]
  omega

theorem getUserProp_own {data : Data} {uuid : String} {user : User}
    (h : getUserProp data uuid = .own user) :
    ∃ hk : uuid ∉ objectPrototypeNames, data.users ⟨uuid, hk⟩ = some user := by
  unfold getUserProp at h
  split at h
  · cases h
  · rename_i hk
    refine ⟨hk, ?_⟩
    split at h
    · rename_i u hu; cases h; exact hu
    · cases h

theorem getUserProp_setUser_self (data : Data) {uuid : String} (user : User)
    (hk : uuid ∉ objectPrototypeNames) :
    getUserProp (setUser data uuid user) uuid = .own user := by
  simp [getUserProp, setUser, hk]

theorem getUserProp_setUser_of_ne (data : Data) {uuid k : String} (user : User)
    (hne : k ≠ uuid) :
    getUserProp (setUser data uuid user) k = getUserProp data k := by
  simp [getUserProp, setUser, hne]

theorem getUserProp_removeUser_of_ne (data : Data) {uuid k : String} (hne : k ≠ uuid) :
    getUserProp (removeUser data uuid) k = getUserProp data k := by
  simp [getUserProp, removeUser, hne]

theorem getUserProp_removeUser_self (data : Data) {uuid : String}
    (hk : uuid ∉ objectPrototypeNames) :
    getUserProp (removeUser data uuid) uuid = .undefined := by
  simp [getUserProp, removeUser, hk]

/-- Deleting the name of a member of `Object.prototype` removes nothing. -/
theorem removeUser_of_prototype (data : Data) {uuid : String}
    (h : uuid ∈ objectPrototypeNames) : removeUser data uuid = data := by
  cases data with
  | mk users globalCounts =>
    simp only [removeUser, Data.mk.injEq, and_true]
    funext k
    have hne : k.1 ≠ uuid := by
      rintro rfl
      exact k.2 h
    simp [hne]

theorem getUserProp_setCount (data : Data) (d : Int) (v : Nat) (k : String) :
    getUserProp (setCount data d v) k = getUserProp data k := rfl

theorem generateUUID_length (rnd : Nat → Fin 16) : (generateUUID rnd).length = 36 := rfl

/-- A generated identifier is never the name of a member of `Object.prototype`. -/
theorem generateUUID_not_prototype (rnd : Nat → Fin 16) :
    generateUUID rnd ∉ objectPrototypeNames := by
  intro h
  have hl := generateUUID_length rnd
  simp only [objectPrototypeNames, List.mem_cons, List.mem_singleton, List.not_mem_nil,
    or_false] at h
  rcases h with h | h | h | h | h | h | h | h | h | h | h | h <;>
    (rw [h] at hl; revert hl; decide)

/-! ## The branches of the handlers -/

theorem createUser_invalid (data : Data) (name : String) (rnd : Nat → Fin 16) (now : Int)
    (hname : trim name = "") :
    createUser data name rnd now = (.error 400 "Name is required", data) := by
  simp [createUser, hname]

theorem createUser_valid (data : Data) (name : String) (rnd : Nat → Fin 16) (now : Int)
    (hname : trim name ≠ "") :
    createUser data name rnd now =
      (.userJson ⟨generateUUID rnd, trim name, now, []⟩,
       setUser data (generateUUID rnd) ⟨generateUUID rnd, trim name, now, []⟩) := by
  have h0 : name ≠ "" := by
    rintro rfl
    exact hname (by decide)
  simp [createUser, hname, h0]

theorem createUser_ok_inv {data s : Data} {name : String} {rnd : Nat → Fin 16} {now : Int}
    {user : User} (h : createUser data name rnd now = (.userJson user, s)) :
    trim name ≠ "" ∧ user = ⟨generateUUID rnd, trim name, now, []⟩ ∧
      s = setUser data (generateUUID rnd) user := by
  by_cases hname : trim name = ""
  · rw [createUser_invalid _ _ _ _ hname] at h
    simp at h
  · rw [createUser_valid _ _ _ _ hname] at h
    simp only [Prod.mk.injEq, Response.userJson.injEq] at h
    obtain ⟨h1, h2⟩ := h
    subst h1
    exact ⟨hname, rfl, h2.symm⟩

theorem completeDay_gated {data : Data} {uuid : String} {user : User} {dayNum now : Int}
    (h : getUserProp data uuid = .own user) (hg : dayNum > allowedDay now user.startDate) :
    completeDay data uuid dayNum now = (.error 400 "Lesson not yet available", data) := by
  simp [completeDay, h, hg]

theorem completeDay_done {data : Data} {uuid : String} {user : User} {dayNum now : Int}
    (h : getUserProp data uuid = .own user) (hg : ¬ dayNum > allowedDay now user.startDate)
    (hc : dayNum ∈ user.completed) :
    completeDay data uuid dayNum now =
      (.completion "Already completed" (countOrZero data dayNum), data) := by
  simp [completeDay, h, hg, hc]

theorem completeDay_fresh {data : Data} {uuid : String} {user : User} {dayNum now : Int}
    (h : getUserProp data uuid = .own user) (hg : ¬ dayNum > allowedDay now user.startDate)
    (hc : dayNum ∉ user.completed) :
    completeDay data uuid dayNum now =
      (.completion "Lesson completed" (countOrZero data dayNum + 1),
       setCount (setUser data uuid { user with completed := user.completed ++ [dayNum] })
         dayNum (countOrZero data dayNum + 1)) := by
  simp [completeDay, h, hg, hc, setCount, setUser, countOrZero]

/-- A response `Lesson completed` only comes from the last branch of the handler. -/
theorem completeDay_fresh_inv {data : Data} {uuid : String} {dayNum now : Int} {c : Nat}
    (h : (completeDay data uuid dayNum now).1 = .completion "Lesson completed" c) :
    ∃ user, getUserProp data uuid = .own user ∧
      ¬ dayNum > allowedDay now user.startDate ∧ dayNum ∉ user.completed := by
  cases hs : getUserProp data uuid with
  | undefined => simp [completeDay, hs] at h
  | inherited n => simp [completeDay, hs] at h
  | own user =>
    refine ⟨user, rfl, ?_, ?_⟩
    · intro hg
      rw [completeDay_gated hs hg] at h
      simp at h
    · intro hc
      by_cases hg : dayNum > allowedDay now user.startDate
      · rw [completeDay_gated hs hg] at h
        simp at h
      · rw [completeDay_done hs hg hc] at h
        simp at h

/-! ## The gating rule and the completion step -/

/-- C1 (gating rule).  For a user present in `users`, the complete-day handler
answers `Lesson not yet available` exactly when
`day > 1 + floor((now - startDate) / 86400000)`; in that case the store is
unchanged, and in every other case the request is answered with a completion
(`Lesson completed` or `Already completed`): nothing else makes it fail. -/
theorem complete_gate (data : Data) (uuid : String) (user : User) (dayNum now : Int)
    (h : getUserProp data uuid = .own user) :
    ((completeDay data uuid dayNum now).1 = .error 400 "Lesson not yet available" ↔
        dayNum > 1 + ⌊((now - user.startDate : Int) : ℚ) / 86400000⌋) ∧
    (dayNum > 1 + ⌊((now - user.startDate : Int) : ℚ) / 86400000⌋ →
        (completeDay data uuid dayNum now).2 = data) ∧
    (¬ dayNum > 1 + ⌊((now - user.startDate : Int) : ℚ) / 86400000⌋ →
        ∃ c, (completeDay data uuid dayNum now).1 = .completion "Lesson completed" c ∨
             (completeDay data uuid dayNum now).1 = .completion "Already completed" c) := by
  rw [← allowedDay_eq_floor]
  by_cases hg : dayNum > allowedDay now user.startDate
  · simp [completeDay_gated h hg, hg]
  · by_cases hc : dayNum ∈ user.completed
    · simp [completeDay_done h hg hc, hg]
    · simp [completeDay_fresh h hg hc, hg]

/-- C1 at a concrete store: day 2 is refused one millisecond before the first
24 hours are over. -/
theorem complete_gate_witness :
    getUserProp sampleData "u1" = .own sampleUser ∧
    (completeDay sampleData "u1" 2 86399999).1 = .error 400 "Lesson not yet available" :=
  ⟨by decide,
   (complete_gate sampleData "u1" sampleUser 2 86399999 (by decide)).1.2
     (by norm_num [sampleUser, Int.floor_eq_iff])⟩

/-- C2 (new completion).  For a user present in `users`, a day that passes the
gate and is not in the completed list: afterwards the user's completed list is
the old one with the day appended, `globalCounts[day]` is the old value (0 if
absent) plus 1, every other user and every other counter is unchanged, and the
response is `Lesson completed` with the new counter value. -/
theorem complete_new (data : Data) (uuid : String) (user : User) (dayNum now : Int)
    (h : getUserProp data uuid = .own user)
    (hgate : dayNum ≤ 1 + ⌊((now - user.startDate : Int) : ℚ) / 86400000⌋)
    (hnew : dayNum ∉ user.completed) :
    getUserProp (completeDay data uuid dayNum now).2 uuid =
        .own { user with completed := user.completed ++ [dayNum] } ∧
    (completeDay data uuid dayNum now).2.globalCounts dayNum =
        some ((data.globalCounts dayNum).getD 0 + 1) ∧
    (∀ k : UserKey, k.1 ≠ uuid →
        (completeDay data uuid dayNum now).2.users k = data.users k) ∧
    (∀ d : Int, d ≠ dayNum →
        (completeDay data uuid dayNum now).2.globalCounts d = data.globalCounts d) ∧
    (completeDay data uuid dayNum now).1 =
        .completion "Lesson completed" ((data.globalCounts dayNum).getD 0 + 1) := by
  rw [← allowedDay_eq_floor] at hgate
  obtain ⟨hk, _⟩ := getUserProp_own h
  rw [completeDay_fresh h (not_lt.2 hgate) hnew]
  refine ⟨?_, ?_, ?_, ?_, rfl⟩
  · rw [getUserProp_setCount, getUserProp_setUser_self _ _ hk]
  · simp [setCount, countOrZero]
  · intro k hne
    simp [setCount, setUser, hne]
  · intro d hne
    simp [setCount, setUser, hne]

/-- C2 at a concrete store: the first completion of day 1 reports the count 1. -/
theorem complete_new_witness :
    getUserProp sampleData "u1" = .own sampleUser ∧
    (completeDay sampleData "u1" 1 0).1 = .completion "Lesson completed" 1 :=
  ⟨by decide,
   (complete_new sampleData "u1" sampleUser 1 0 (by decide)
     (by norm_num [sampleUser]) (by decide)).2.2.2.2⟩

/-- C3 (already completed).  For a user present in `users` and a day that passes
the gate and is already in the completed list, the handler answers
`Already completed` with `globalCounts[day]` (0 if absent) and returns the very
same store. -/
theorem complete_already (data : Data) (uuid : String) (user : User) (dayNum now : Int)
    (h : getUserProp data uuid = .own user)
    (hgate : dayNum ≤ 1 + ⌊((now - user.startDate : Int) : ℚ) / 86400000⌋)
    (hdone : dayNum ∈ user.completed) :
    completeDay data uuid dayNum now =
      (.completion "Already completed" ((data.globalCounts dayNum).getD 0), data) := by
  rw [← allowedDay_eq_floor] at hgate
  rw [completeDay_done h (not_lt.2 hgate) hdone]
  rfl

/-- C3 at a concrete store in which day 1 has been completed once. -/
theorem complete_already_witness :
    getUserProp sampleDataDone "u1" = .own sampleUserDone ∧
    completeDay sampleDataDone "u1" 1 5 =
      (.completion "Already completed" 1, sampleDataDone) :=
  ⟨by decide,
   complete_already sampleDataDone "u1" sampleUserDone 1 5 (by decide)
     (by norm_num [sampleUserDone]) (by decide)⟩

/-- C4 (completing twice).  If a complete-day request records a new completion
at time `t1` with reported count `c`, the same request at any later time `t2`
answers `Already completed`, reports the same `c`, and leaves the store as the
first request left it; when the day had no counter before, `c` is 1. -/
theorem complete_twice (data : Data) (uuid : String) (dayNum t1 t2 : Int) (c : Nat)
    (hfirst : (completeDay data uuid dayNum t1).1 = .completion "Lesson completed" c)
    (ht : t1 ≤ t2) :
    completeDay (completeDay data uuid dayNum t1).2 uuid dayNum t2 =
      (.completion "Already completed" c, (completeDay data uuid dayNum t1).2) ∧
    (data.globalCounts dayNum = none → c = 1) := by
  obtain ⟨user, hu, hg, hc⟩ := completeDay_fresh_inv hfirst
  obtain ⟨hk, _⟩ := getUserProp_own hu
  rw [completeDay_fresh hu hg hc] at hfirst ⊢
  simp only [Response.completion.injEq, true_and] at hfirst
  have hu2 : getUserProp (setCount (setUser data uuid
      { user with completed := user.completed ++ [dayNum] }) dayNum
      (countOrZero data dayNum + 1)) uuid =
      .own { user with completed := user.completed ++ [dayNum] } := by
    rw [getUserProp_setCount, getUserProp_setUser_self _ _ hk]
  have hg2 : ¬ dayNum > allowedDay t2 user.startDate := by
    have := allowedDay_mono user.startDate ht
    omega
  refine ⟨?_, ?_⟩
  · rw [completeDay_done hu2 hg2 (by simp)]
    simp [setCount, countOrZero, ← hfirst]
  · intro hnone
    simp [← hfirst, countOrZero, hnone]

/-- C4 on a fresh store: a user enrols, completes day 1 (count 1), and asks
again later (still count 1). -/
theorem complete_twice_witness :
    (completeDay (createUser initialData "Alice" zeroDraws 0).2
        "00000000-0000-4000-8000-000000000000" 1 0).1 = .completion "Lesson completed" 1 ∧
    (completeDay (completeDay (createUser initialData "Alice" zeroDraws 0).2
        "00000000-0000-4000-8000-000000000000" 1 0).2
        "00000000-0000-4000-8000-000000000000" 1 7).1 = .completion "Already completed" 1 :=
  ⟨by decide,
   congrArg Prod.fst (complete_twice (createUser initialData "Alice" zeroDraws 0).2
     "00000000-0000-4000-8000-000000000000" 1 0 7 1 (by decide) (by decide)).1⟩

/-- C5 (24-hour threshold).  For a user just enrolled at time `t0` and any clock
value `now ≥ t0`: completing day 1 succeeds; completing day 2 is refused with
`Lesson not yet available` (store unchanged) while `now - t0 < 86400000`, and
succeeds once `now - t0 ≥ 86400000`. -/
theorem day_two_threshold (data s : Data) (name : String) (rnd : Nat → Fin 16)
    (t0 now : Int) (user : User)
    (henroll : createUser data name rnd t0 = (.userJson user, s)) (hnow : t0 ≤ now) :
    (completeDay s user.uuid 1 now).1 =
        .completion "Lesson completed" ((data.globalCounts 1).getD 0 + 1) ∧
    (now - t0 < 86400000 →
        completeDay s user.uuid 2 now = (.error 400 "Lesson not yet available", s)) ∧
    (86400000 ≤ now - t0 →
        (completeDay s user.uuid 2 now).1 =
          .completion "Lesson completed" ((data.globalCounts 2).getD 0 + 1)) := by
  obtain ⟨_, hu, hs⟩ := createUser_ok_inv henroll
  have hid : user.uuid = generateUUID rnd := by rw [hu]
  have hst : user.startDate = t0 := by rw [hu]
  have hcomp : user.completed = [] := by rw [hu]
  have hslot : getUserProp s user.uuid = .own user := by
    rw [hs, hid]
    exact getUserProp_setUser_self _ _ (generateUUID_not_prototype rnd)
  have hcnt : ∀ d, countOrZero s d = (data.globalCounts d).getD 0 := by
    intro d; rw [hs]; rfl
  have hall : allowedDay now user.startDate = 1 + (now - t0) / 86400000 := by
    rw [allowedDay_eq_ediv, hst]
  refine ⟨?_, ?_, ?_⟩
  · rw [completeDay_fresh hslot (by rw [hall]; omega) (by simp [hcomp]), hcnt]
  · intro hlt
    exact completeDay_gated hslot (by rw [hall]; omega)
  · intro hge
    rw [completeDay_fresh hslot (by rw [hall]; omega) (by simp [hcomp]), hcnt]

/-- C5 on a fresh store: day 2 is refused 23 hours after enrolment. -/
theorem day_two_threshold_witness :
    createUser initialData "Alice" zeroDraws 0 =
      (.userJson ⟨"00000000-0000-4000-8000-000000000000", "Alice", 0, []⟩,
       (createUser initialData "Alice" zeroDraws 0).2) ∧
    (completeDay (createUser initialData "Alice" zeroDraws 0).2
        "00000000-0000-4000-8000-000000000000" 2 82800000).1 =
      .error 400 "Lesson not yet available" :=
  ⟨rfl,
   congrArg Prod.fst ((day_two_threshold initialData (createUser initialData "Alice" zeroDraws 0).2
     "Alice" zeroDraws 0 82800000 ⟨"00000000-0000-4000-8000-000000000000", "Alice", 0, []⟩
     rfl (by decide)).2.1 (by decide))⟩

/-! ## Counters along a history -/

theorem pending_nil (d : Int) (data : Data) (uuid : String) :
    pending d data [] uuid = false := by
  simp [pending, everCompleted]

theorem pending_cons (d : Int) (data : Data) (op : Op) (ops : List Op) (uuid : String) :
    pending d data (op :: ops) uuid =
      (!hasCompleted data uuid d && (!endsLife data uuid op &&
        everCompleted uuid d (handle data op).2 ops)) := by
  simp only [pending, everCompleted]
  cases hasCompleted data uuid d <;> simp

theorem everCompleted_of_hasCompleted {d : Int} {data : Data} {uuid : String}
    (h : hasCompleted data uuid d = true) (ops : List Op) :
    everCompleted uuid d data ops = true := by
  cases ops <;> simp [everCompleted, h]

theorem hasCompleted_of_not_own {data : Data} {uuid : String}
    (h : ∀ user, getUserProp data uuid ≠ .own user) (d : Int) :
    hasCompleted data uuid d = false := by
  unfold hasCompleted
  cases hs : getUserProp data uuid with
  | own user => exact absurd hs (h user)
  | undefined => rfl
  | inherited n => rfl

theorem hasCompleted_congr {data data1 : Data} {uuid : String}
    (h : getUserProp data1 uuid = getUserProp data uuid) (d : Int) :
    hasCompleted data1 uuid d = hasCompleted data uuid d := by
  simp [hasCompleted, h]

theorem enrolls_createUser_valid (data : Data) (name : String) (rnd : Nat → Fin 16) (now : Int)
    (hname : trim name ≠ "") :
    enrolls data (.createUser name rnd now) = some (generateUUID rnd) := by
  simp [enrolls, createUser_valid _ _ _ _ hname]

theorem enrolls_createUser_invalid (data : Data) (name : String) (rnd : Nat → Fin 16)
    (now : Int) (hname : trim name = "") :
    enrolls data (.createUser name rnd now) = none := by
  simp [enrolls, createUser_invalid _ _ _ _ hname]

theorem getUser_snd (data : Data) (uuid : String) : (getUser data uuid).2 = data := by
  unfold getUser
  split <;> rfl

/-- The three possible effects of a complete-day request on the store. -/
theorem completeDay_cases (data : Data) (uuid : String) (dayNum now : Int) :
    (isNewCompletion (completeDay data uuid dayNum now).1 = false ∧
      (completeDay data uuid dayNum now).2 = data) ∨
    (∃ user, getUserProp data uuid = .own user ∧ dayNum ∉ user.completed ∧
      isNewCompletion (completeDay data uuid dayNum now).1 = true ∧
      (completeDay data uuid dayNum now).2 =
        setCount (setUser data uuid { user with completed := user.completed ++ [dayNum] })
          dayNum (countOrZero data dayNum + 1)) := by
  cases hs : getUserProp data uuid with
  | undefined => left; simp [completeDay, hs, isNewCompletion]
  | inherited n => left; simp [completeDay, hs, isNewCompletion]
  | own user =>
    by_cases hg : dayNum > allowedDay now user.startDate
    · left; simp [completeDay_gated hs hg, isNewCompletion]
    · by_cases hc : dayNum ∈ user.completed
      · left; simp [completeDay_done hs hg hc, isNewCompletion]
      · right
        exact ⟨user, rfl, hc, by simp [completeDay_fresh hs hg hc, isNewCompletion],
          by rw [completeDay_fresh hs hg hc]⟩

/-- The effect of a delete request on the store. -/
theorem deleteUser_snd (data : Data) (uuid : String) :
    (deleteUser data uuid).2 = data ∧ (∀ user, getUserProp data uuid ≠ .own user) ∨
    (deleteUser data uuid).2 = removeUser data uuid := by
  cases hs : getUserProp data uuid with
  | undefined => left; simp [deleteUser, hs]
  | inherited n => right; simp [deleteUser, hs]
  | own user => right; simp [deleteUser, hs]

theorem getUserProp_removeUser_self_ne_own (data : Data) (uuid : String) (user : User) :
    getUserProp (removeUser data uuid) uuid ≠ .own user := by
  simp only [getUserProp, removeUser]
  split
  · simp
  · simp

/-- A request that does not end the life of `uuid` does not create a user there. -/
theorem not_own_handle {data : Data} {uuid : String} {op : Op}
    (h : ∀ user, getUserProp data uuid ≠ .own user) (he : endsLife data uuid op = false) :
    ∀ user, getUserProp (handle data op).2 uuid ≠ .own user := by
  cases op with
  | createUser name rnd now =>
    by_cases hname : trim name = ""
    · simpa [handle, createUser_invalid _ _ _ _ hname] using h
    · have hne : uuid ≠ generateUUID rnd := by
        intro heq
        simp [endsLife, enrolls_createUser_valid _ _ _ _ hname, heq] at he
      simpa [handle, createUser_valid _ _ _ _ hname, getUserProp_setUser_of_ne _ _ hne] using h
  | getUser u => simpa [handle, getUser_snd] using h
  | globalCount dn => simpa [handle, globalCount] using h
  | completeDay u dn now =>
    rcases completeDay_cases data u dn now with ⟨_, hs⟩ | ⟨usr, hu, _, _, hs⟩
    · simpa [handle, hs] using h
    · have hne : uuid ≠ u := by
        rintro rfl
        exact h usr hu
      simpa [handle, hs, getUserProp_setCount, getUserProp_setUser_of_ne _ _ hne] using h
  | deleteUser u =>
    have hne : uuid ≠ u := by
      intro heq
      simp [endsLife, heq] at he
    rcases deleteUser_snd data u with ⟨hs, _⟩ | hs
    · simpa [handle, hs] using h
    · simpa [handle, hs, getUserProp_removeUser_of_ne _ hne] using h

theorem everCompleted_of_not_own (d : Int) (uuid : String) (ops : List Op) :
    ∀ data : Data, (∀ user, getUserProp data uuid ≠ .own user) →
      everCompleted uuid d data ops = false := by
  induction ops with
  | nil =>
    intro data h
    simp [everCompleted, hasCompleted_of_not_own h]
  | cons op ops ih =>
    intro data h
    simp only [everCompleted, hasCompleted_of_not_own h, Bool.false_or]
    cases he : endsLife data uuid op with
    | true => simp
    | false => simp [ih _ (not_own_handle h he)]

theorem countP_update {ks : List String} (hnd : ks.Nodup) {u : String} (hu : u ∈ ks)
    (p q : String → Bool) (h : ∀ k, k ≠ u → p k = q k) :
    ks.countP p + (if q u = true then 1 else 0) = ks.countP q + (if p u = true then 1 else 0) := by
  induction ks with
  | nil => simp at hu
  | cons k ks ih =>
    rw [List.nodup_cons] at hnd
    by_cases hk : k = u
    · subst hk
      have hc : ks.countP p = ks.countP q := by
        apply List.countP_congr
        intro x hx
        have : x ≠ k := by rintro rfl; exact hnd.1 hx
        rw [h x this]
      simp only [List.countP_cons, hc]
      omega
    · have hu2 : u ∈ ks := by
        rcases List.mem_cons.1 hu with rfl | h2
        · exact absurd rfl hk
        · exact h2
      have := ih hnd.2 hu2
      simp only [List.countP_cons, h k hk]
      omega

theorem countOrZero_setCount_self (data : Data) (d : Int) (v : Nat) :
    countOrZero (setCount data d v) d = v := by
  simp [countOrZero, setCount]

theorem countOrZero_setCount_of_ne (data : Data) {d e : Int} (v : Nat) (h : e ≠ d) :
    countOrZero (setCount data d v) e = countOrZero data e := by
  simp [countOrZero, setCount, h]

theorem countOrZero_setUser (data : Data) (uuid : String) (user : User) (d : Int) :
    countOrZero (setUser data uuid user) d = countOrZero data d := rfl

/-- Each new completion of day `d` adds one to its counter, and nothing else
changes it. -/
theorem countOrZero_run (d : Int) (ops : List Op) :
    ∀ data : Data,
      countOrZero (run data ops) d = countOrZero data d + (newCompleters d data ops).length := by
  induction ops with
  | nil => intro data; simp [run, newCompleters]
  | cons op ops ih =>
    intro data
    cases op with
    | createUser name rnd now =>
      rw [run, ih]
      by_cases hname : trim name = ""
      · simp [newCompleters, handle, createUser_invalid _ _ _ _ hname]
      · simp [newCompleters, handle, createUser_valid _ _ _ _ hname, countOrZero_setUser]
    | getUser u => rw [run, ih]; simp [newCompleters, handle, getUser_snd]
    | globalCount dn => rw [run, ih]; simp [newCompleters, handle, globalCount]
    | deleteUser u =>
      rw [run, ih]
      rcases deleteUser_snd data u with ⟨hs, _⟩ | hs
      · simp [newCompleters, handle, hs]
      · simp [newCompleters, handle, hs, removeUser, countOrZero]
    | completeDay u dn now =>
      rw [run, ih]
      rcases completeDay_cases data u dn now with ⟨hn, hs⟩ | ⟨usr, hu, _, hn, hs⟩
      · simp [newCompleters, handle, hs, hn]
      · by_cases hd : dn = d
        · subst hd
          simp [newCompleters, handle, hs, hn, countOrZero_setCount_self]
          omega
        · have hd2 : d ≠ dn := fun h => hd h.symm
          simp [newCompleters, handle, hs, hd, countOrZero_setCount_of_ne _ _ hd2,
            countOrZero_setUser]

theorem Covers.handle {ks : List String} {data : Data} {op : Op} {ops : List Op}
    (h : Covers ks data (op :: ops)) : Covers ks (handle data op).2 ops := by
  refine ⟨?_, fun name rnd now hm => h.2 name rnd now (List.mem_cons_of_mem _ hm)⟩
  intro uuid user hu
  by_cases hown : ∃ usr, getUserProp data uuid = .own usr
  · obtain ⟨usr, husr⟩ := hown
    exact h.1 uuid usr husr
  · have hno : ∀ usr, getUserProp data uuid ≠ .own usr := fun usr hx => hown ⟨usr, hx⟩
    cases he : endsLife data uuid op with
    | false => exact absurd hu (not_own_handle hno he user)
    | true =>
      cases op with
      | createUser name rnd now =>
        by_cases hname : trim name = ""
        · simp [endsLife, enrolls_createUser_invalid _ _ _ _ hname] at he
        · simp [endsLife, enrolls_createUser_valid _ _ _ _ hname] at he
          rw [← he]
          exact h.2 name rnd now (List.mem_cons_self _ _)
      | getUser u => simp [endsLife, enrolls] at he
      | globalCount dn => simp [endsLife, enrolls] at he
      | completeDay u dn now => simp [endsLife, enrolls] at he
      | deleteUser u =>
        simp [endsLife] at he
        subst he
        rcases deleteUser_snd data u with ⟨hs, _⟩ | hs
        · rw [Server.handle, hs] at hu
          exact absurd hu (hno user)
        · rw [Server.handle, hs] at hu
          exact absurd hu (getUserProp_removeUser_self_ne_own _ _ _)

theorem pending_cons_stable {d : Int} {data : Data} {op : Op} {ops : List Op} {k : String}
    (he : endsLife data k op = false)
    (hc : hasCompleted (handle data op).2 k d = hasCompleted data k d) :
    pending d (handle data op).2 ops k = pending d data (op :: ops) k := by
  rw [pending_cons, pending, hc, he]
  simp

theorem countP_pending_same (d : Int) {data : Data} {op : Op} (ops : List Op)
    (ks : List String) (hs : (handle data op).2 = data)
    (he : ∀ k, endsLife data k op = true → ∀ user, getUserProp data k ≠ .own user) :
    ks.countP (pending d (handle data op).2 ops) = ks.countP (pending d data (op :: ops)) := by
  apply List.countP_congr
  intro k _
  cases hk : endsLife data k op with
  | false => rw [pending_cons_stable hk (by rw [hs])]
  | true =>
    rw [pending_cons, hk, hs, pending, everCompleted_of_not_own d k ops data (he k hk)]
    simp

/-- The new completions of day `d` are made by the users enrolled during `ops`
that ever complete `d`, and by the users already stored that have yet to. -/
theorem newCompleters_length (d : Int) {ks : List String} (hnd : ks.Nodup) (ops : List Op) :
    ∀ data : Data, Covers ks data ops →
      (newCompleters d data ops).length = tally d data ops + ks.countP (pending d data ops) := by
  induction ops with
  | nil =>
    intro data _
    have : ks.countP (pending d data []) = 0 := by
      rw [List.countP_eq_zero]
      intro k _
      simp [pending_nil]
    simp [newCompleters, tally, this]
  | cons op ops ih =>
    intro data hcov
    have hih := ih _ hcov.handle
    cases op with
    | getUser u =>
      have hp := countP_pending_same d ops ks
        (show (handle data (.getUser u)).2 = data from getUser_snd _ _)
        (by intro k hk; simp [endsLife, enrolls] at hk)
      simp only [newCompleters, tally, enrolls, List.nil_append, Nat.zero_add]
      rw [hih, hp]
    | globalCount dn =>
      have hp := countP_pending_same d ops ks
        (show (handle data (.globalCount dn)).2 = data from rfl)
        (by intro k hk; simp [endsLife, enrolls] at hk)
      simp only [newCompleters, tally, enrolls, List.nil_append, Nat.zero_add]
      rw [hih, hp]
    | createUser name rnd now =>
      by_cases hname : trim name = ""
      · have hp := countP_pending_same d ops ks
          (show (handle data (.createUser name rnd now)).2 = data by
            simp [handle, createUser_invalid _ _ _ _ hname])
          (by intro k hk
              simp [endsLife, enrolls_createUser_invalid _ _ _ _ hname] at hk)
        simp only [newCompleters, tally, enrolls_createUser_invalid _ _ _ _ hname,
          List.nil_append, Nat.zero_add]
        rw [hih, hp]
      · have hmem : generateUUID rnd ∈ ks := hcov.2 name rnd now (List.mem_cons_self _ _)
        have hs : (handle data (.createUser name rnd now)).2 =
            setUser data (generateUUID rnd) ⟨generateUUID rnd, trim name, now, []⟩ := by
          simp [handle, createUser_valid _ _ _ _ hname]
        have hcu := countP_update hnd hmem
          (pending d (handle data (.createUser name rnd now)).2 ops)
          (pending d data (.createUser name rnd now :: ops))
          (by
            intro k hk
            apply pending_cons_stable
            · simp [endsLife, enrolls_createUser_valid _ _ _ _ hname, Ne.symm hk]
            · exact hasCompleted_congr (by rw [hs, getUserProp_setUser_of_ne _ _ hk]) d)
        have hq : pending d data (.createUser name rnd now :: ops) (generateUUID rnd) = false := by
          rw [pending_cons]
          simp [endsLife, enrolls_createUser_valid _ _ _ _ hname]
        have hp : pending d (handle data (.createUser name rnd now)).2 ops (generateUUID rnd) =
            everCompleted (generateUUID rnd) d (handle data (.createUser name rnd now)).2 ops := by
          rw [pending]
          have : hasCompleted (handle data (.createUser name rnd now)).2 (generateUUID rnd) d
              = false := by
            rw [hs, hasCompleted,
              getUserProp_setUser_self _ _ (generateUUID_not_prototype rnd)]
            simp
          simp [this]
        rw [hq, hp] at hcu
        simp only [newCompleters, tally, enrolls_createUser_valid _ _ _ _ hname,
          List.nil_append]
        rw [hih]
        simp only [Bool.false_eq_true, if_false, Nat.add_zero] at hcu
        omega
    | deleteUser u =>
      have hcong : ks.countP (pending d (handle data (.deleteUser u)).2 ops) =
          ks.countP (pending d data (.deleteUser u :: ops)) := by
        apply List.countP_congr
        intro k _
        by_cases hk : k = u
        · subst hk
          have hno : ∀ user, getUserProp (handle data (.deleteUser k)).2 k ≠ .own user := by
            intro user
            rcases deleteUser_snd data k with ⟨hs, hn⟩ | hs
            · rw [handle, hs]; exact hn user
            · rw [handle, hs]; exact getUserProp_removeUser_self_ne_own _ _ _
          rw [pending_cons, pending, everCompleted_of_not_own d k ops _ hno]
          simp
        · rw [pending_cons_stable]
          · simp [endsLife, Ne.symm hk]
          · apply hasCompleted_congr
            rcases deleteUser_snd data u with ⟨hs, _⟩ | hs
            · rw [handle, hs]
            · rw [handle, hs, getUserProp_removeUser_of_ne _ hk]
      simp only [newCompleters, tally, enrolls, List.nil_append, Nat.zero_add]
      rw [hih, hcong]
    | completeDay u dn now =>
      rcases completeDay_cases data u dn now with ⟨hn, hs⟩ | ⟨usr, hu, hnot, hn, hs⟩
      · have hp := countP_pending_same d ops ks
          (show (handle data (.completeDay u dn now)).2 = data from hs)
          (by intro k hk; simp [endsLife, enrolls] at hk)
        simp only [newCompleters, tally, enrolls, hn, Bool.false_eq_true, and_false, if_false,
          List.nil_append, Nat.zero_add]
        rw [hih, hp]
      · obtain ⟨hkey, _⟩ := getUserProp_own hu
        have hs2 : (handle data (.completeDay u dn now)).2 =
            setCount (setUser data u { usr with completed := usr.completed ++ [dn] })
              dn (countOrZero data dn + 1) := hs
        have hother : ∀ k, k ≠ u →
            pending d (handle data (.completeDay u dn now)).2 ops k =
              pending d data (.completeDay u dn now :: ops) k := by
          intro k hk
          apply pending_cons_stable
          · simp [endsLife, enrolls]
          · exact hasCompleted_congr
              (by rw [hs2, getUserProp_setCount, getUserProp_setUser_of_ne _ _ hk]) d
        by_cases hd : dn = d
        · subst hd
          have hmem : u ∈ ks := hcov.1 u usr hu
          have hcu := countP_update hnd hmem _ _ hother
          have hafter : hasCompleted (handle data (.completeDay u dn now)).2 u dn = true := by
            rw [hs2, hasCompleted, getUserProp_setCount, getUserProp_setUser_self _ _ hkey]
            simp
          have hbefore : hasCompleted data u dn = false := by
            rw [hasCompleted, hu]
            simpa using hnot
          have hp : pending dn (handle data (.completeDay u dn now)).2 ops u = false := by
            simp [pending, hafter]
          have hq : pending dn data (.completeDay u dn now :: ops) u = true := by
            rw [pending_cons, hbefore, everCompleted_of_hasCompleted hafter]
            simp [endsLife, enrolls]
          rw [hp, hq] at hcu
          simp only [newCompleters, tally, enrolls, hn, and_self, if_true,
            List.length_append, List.length_singleton, Nat.zero_add]
          rw [hih]
          simp only [if_true, Bool.false_eq_true, if_false, Nat.add_zero] at hcu
          omega
        · have hcong : ks.countP (pending d (handle data (.completeDay u dn now)).2 ops) =
              ks.countP (pending d data (.completeDay u dn now :: ops)) := by
            apply List.countP_congr
            intro k _
            by_cases hk : k = u
            · subst hk
              rw [pending_cons_stable]
              · simp [endsLife, enrolls]
              · rw [hs2, hasCompleted, hasCompleted, getUserProp_setCount,
                  getUserProp_setUser_self _ _ hkey, hu]
                simp [Ne.symm hd]
            · rw [hother k hk]
          simp only [newCompleters, tally, enrolls, hd, false_and, if_false,
            List.nil_append, Nat.zero_add]
          rw [hih, hcong]

/-! ## The tally, the count query, deletion, unknown identifiers, enrolment -/

theorem mem_generatedIds {name : String} {rnd : Nat → Fin 16} {now : Int} :
    ∀ {ops : List Op}, Op.createUser name rnd now ∈ ops → generateUUID rnd ∈ generatedIds ops := by
  intro ops
  induction ops with
  | nil => intro h; simp at h
  | cons op ops ih =>
    intro h
    rcases List.mem_cons.1 h with rfl | h2
    · simp [generatedIds]
    · have := ih h2
      cases op <;> simp [generatedIds, this]

theorem getUserProp_initialData_ne_own (uuid : String) (user : User) :
    getUserProp initialData uuid ≠ .own user := by
  simp only [getUserProp, initialData]
  split <;> simp

/-- C6 (global count is the historical tally).  In every store reached from the
initial empty store by a sequence of requests, `globalCounts[d]` (0 if absent)
is the number of users enrolled during that history, deleted ones included,
whose completed list has at some point contained `d`. -/
theorem global_count_is_tally (ops : List Op) (d : Int) :
    ((run initialData ops).globalCounts d).getD 0 = tally d initialData ops := by
  have hcov : Covers (generatedIds ops).dedup initialData ops :=
    ⟨fun uuid user h => absurd h (getUserProp_initialData_ne_own uuid user),
     fun name rnd now h => List.mem_dedup.2 (mem_generatedIds h)⟩
  have hlen := newCompleters_length d (List.nodup_dedup _) ops initialData hcov
  have hzero : (generatedIds ops).dedup.countP (pending d initialData ops) = 0 := by
    rw [List.countP_eq_zero]
    intro k _
    simp [pending, everCompleted_of_not_own d k ops initialData
      (getUserProp_initialData_ne_own k)]
  have hrun := countOrZero_run d ops initialData
  rw [hlen, hzero] at hrun
  simpa [countOrZero, initialData] using hrun

/-- C7 (day-count query).  The global-count handler always answers with the
day and `globalCounts[day]` (0 when the day has no entry) and returns the store
unchanged; and starting from the empty store, once the new completions of day
`D` have been made by `n` pairwise distinct identifiers, whatever other requests
were served in between, it answers `n`. -/
theorem global_count_query (data : Data) (dayNum : Int) :
    globalCount data dayNum = (.dayCount dayNum ((data.globalCounts dayNum).getD 0), data) ∧
    (data.globalCounts dayNum = none → (globalCount data dayNum).1 = .dayCount dayNum 0) ∧
    ∀ (ops : List Op) (n : Nat),
      (newCompleters dayNum initialData ops).Nodup →
      (newCompleters dayNum initialData ops).length = n →
      (globalCount (run initialData ops) dayNum).1 = .dayCount dayNum n := by
  refine ⟨rfl, ?_, ?_⟩
  · intro h
    simp [globalCount, countOrZero, h]
  · intro ops n _ hn
    have hrun := countOrZero_run dayNum ops initialData
    rw [hn] at hrun
    simp only [globalCount, hrun]
    simp [countOrZero, initialData]

/-- C7 on a history in which two users complete day 1. -/
theorem global_count_query_witness :
    (newCompleters 1 initialData sampleOps).Nodup ∧
    (newCompleters 1 initialData sampleOps).length = 2 ∧
    (globalCount (run initialData sampleOps) 1).1 = .dayCount 1 2 :=
  ⟨by decide, by decide,
   (global_count_query initialData 1).2.2 sampleOps 2 (by decide) (by decide)⟩

/-- C8 (delete frame).  Deleting an identifier present in `users` answers
`User deleted`, removes exactly that identifier from `users`, and leaves
`globalCounts` as it was; a following get-user for the identifier answers
`User not found`, and every day's count is what it was before. -/
theorem delete_frame (data : Data) (uuid : String) (user : User)
    (h : getUserProp data uuid = .own user) :
    (deleteUser data uuid).1 = .message "User deleted" ∧
    (∀ k : UserKey, (deleteUser data uuid).2.users k =
        if k.1 = uuid then none else data.users k) ∧
    (deleteUser data uuid).2.globalCounts = data.globalCounts ∧
    getUser (deleteUser data uuid).2 uuid =
        (.error 404 "User not found", (deleteUser data uuid).2) ∧
    (∀ d : Int, (globalCount (deleteUser data uuid).2 d).1 = (globalCount data d).1) := by
  obtain ⟨hk, _⟩ := getUserProp_own h
  have hs : deleteUser data uuid = (.message "User deleted", removeUser data uuid) := by
    simp [deleteUser, h]
  rw [hs]
  refine ⟨rfl, fun k => rfl, rfl, ?_, fun d => rfl⟩
  simp [getUser, getUserProp_removeUser_self _ hk]

/-- C8 on a store whose only user has completed day 1: the count stays 1. -/
theorem delete_frame_witness :
    getUserProp sampleDataDone "u1" = .own sampleUserDone ∧
    getUser (deleteUser sampleDataDone "u1").2 "u1" =
        (.error 404 "User not found", (deleteUser sampleDataDone "u1").2) ∧
    (globalCount (deleteUser sampleDataDone "u1").2 1).1 = .dayCount 1 1 :=
  ⟨by decide,
   (delete_frame sampleDataDone "u1" sampleUserDone (by decide)).2.2.2.1,
   ((delete_frame sampleDataDone "u1" sampleUserDone (by decide)).2.2.2.2 1).trans (by decide)⟩

/-- When the read `data.users[uuid]` yields `undefined`, the three handlers
answer `User not found` and return the store unchanged. -/
theorem unknown_id_not_found (data : Data) (uuid : String) (dayNum now : Int)
    (h : getUserProp data uuid = .undefined) :
    getUser data uuid = (.error 404 "User not found", data) ∧
    completeDay data uuid dayNum now = (.error 404 "User not found", data) ∧
    deleteUser data uuid = (.error 404 "User not found", data) := by
  simp [getUser, completeDay, deleteUser, h]

/-- C9 (unknown id), evaluated on the empty store.  The identifier
`constructor` is not a key of `users`, yet none of the three handlers answers
`User not found`: get-user sends the inherited member, complete-day throws for
every day and clock value, and delete-user answers `User deleted`.  The store
is unchanged in the three cases. -/
theorem prototype_name_not_rejected :
    (∀ k : UserKey, initialData.users k = none) ∧
    getUser initialData "constructor" = (.inheritedJson "constructor", initialData) ∧
    (∀ dayNum now : Int,
      completeDay initialData "constructor" dayNum now = (.typeError, initialData)) ∧
    deleteUser initialData "constructor" = (.message "User deleted", initialData) :=
  ⟨fun _ => rfl, rfl, fun _ _ => rfl,
   Prod.ext (by decide) (removeUser_of_prototype initialData (by decide))⟩

/-- A name trims to the empty string exactly when it consists of white space
only. -/
theorem trim_eq_empty_iff (name : String) :
    trim name = "" ↔ ∀ c ∈ name.toList, isWhiteSpace c = true := by
  unfold trim
  rw [String.ext_iff]
  show ((name.toList.dropWhile isWhiteSpace).reverse.dropWhile isWhiteSpace).reverse = [] ↔ _
  rw [List.reverse_eq_nil_iff, List.dropWhile_eq_nil_iff]
  constructor
  · intro h
    have hnil : name.toList.dropWhile isWhiteSpace = [] := by
      by_contra hne
      have hhead := List.head_dropWhile_not isWhiteSpace name.toList hne
      have := h _ (List.mem_reverse.2 (List.head_mem hne))
      exact Bool.false_ne_true (hhead.symm.trans this)
    exact List.dropWhile_eq_nil_iff.1 hnil
  · intro h
    rw [List.dropWhile_eq_nil_iff.2 h]
    simp

/-- C10 (enrolment).  Create-user answers `Name is required` exactly when the
name is empty after trimming, and then returns the store unchanged; otherwise
it answers with a user whose name is the trimmed name, whose completed list is
empty and whose `startDate` is the clock value, and that same user is stored
under its own `uuid`.  Enrolling `Alice` returns the name `Alice` with no
completed days. -/
theorem create_user_spec (data : Data) (name : String) (rnd : Nat → Fin 16) (now : Int) :
    ((createUser data name rnd now).1 = .error 400 "Name is required" ↔ trim name = "") ∧
    (trim name = "" → (createUser data name rnd now).2 = data) ∧
    (trim name ≠ "" → ∃ user : User,
        (createUser data name rnd now).1 = .userJson user ∧
        user.name = trim name ∧ user.completed = [] ∧ user.startDate = now ∧
        getUserProp (createUser data name rnd now).2 user.uuid = .own user) ∧
    (∃ uuid, (createUser data "Alice" rnd now).1 = .userJson ⟨uuid, "Alice", now, []⟩) := by
  refine ⟨?_, ?_, ?_, ?_⟩
  · by_cases hname : trim name = ""
    · simp [createUser_invalid _ _ _ _ hname, hname]
    · simp [createUser_valid _ _ _ _ hname, hname]
  · intro hname
    rw [createUser_invalid _ _ _ _ hname]
  · intro hname
    rw [createUser_valid _ _ _ _ hname]
    exact ⟨_, rfl, rfl, rfl, rfl,
      getUserProp_setUser_self _ _ (generateUUID_not_prototype rnd)⟩
  · exact ⟨generateUUID rnd, by
      rw [createUser_valid _ _ _ _ (by decide)]
      rfl⟩

/-- C10 at a blank name and at a name with surrounding blanks. -/
theorem create_user_spec_witness :
    trim "   " = "" ∧ trim " Bob " ≠ "" ∧
    (createUser initialData "   " zeroDraws 0).2 = initialData ∧
    (∃ user : User, (createUser initialData " Bob " zeroDraws 0).1 = .userJson user ∧
        user.name = trim " Bob " ∧ user.completed = [] ∧ user.startDate = 0 ∧
        getUserProp (createUser initialData " Bob " zeroDraws 0).2 user.uuid = .own user) :=
  ⟨by decide, by decide,
   (create_user_spec initialData "   " zeroDraws 0).2.1 (by decide),
   (create_user_spec initialData " Bob " zeroDraws 0).2.2.1 (by decide)⟩

/-! ## The effect of one request, and invariants along a history -/

/-- The effect of one request on the store: nothing, a new record, one more
completed day with its counter, or a removal. -/
theorem handle_cases (data : Data) (op : Op) :
    (handle data op).2 = data ∨
    (∃ name rnd now, op = .createUser name rnd now ∧
      (handle data op).2 =
        setUser data (generateUUID rnd) ⟨generateUUID rnd, trim name, now, []⟩) ∨
    (∃ u dn now user, op = .completeDay u dn now ∧ getUserProp data u = .own user ∧
      dn ∉ user.completed ∧
      (handle data op).2 =
        setCount (setUser data u { user with completed := user.completed ++ [dn] })
          dn (countOrZero data dn + 1)) ∨
    (∃ u, op = .deleteUser u ∧ (handle data op).2 = removeUser data u) := by
  cases op with
  | createUser name rnd now =>
    by_cases hname : trim name = ""
    · left; simp [handle, createUser_invalid _ _ _ _ hname]
    · right; left
      exact ⟨name, rnd, now, rfl, by simp [handle, createUser_valid _ _ _ _ hname]⟩
  | getUser u => left; exact getUser_snd data u
  | globalCount dn => left; rfl
  | completeDay u dn now =>
    rcases completeDay_cases data u dn now with ⟨_, hs⟩ | ⟨usr, hu, hnot, _, hs⟩
    · left; exact hs
    · right; right; left
      exact ⟨u, dn, now, usr, rfl, hu, hnot, hs⟩
  | deleteUser u =>
    rcases deleteUser_snd data u with ⟨hs, _⟩ | hs
    · left; exact hs
    · right; right; right
      exact ⟨u, rfl, hs⟩

/-- A property kept by every request of a given kind holds along every history
of such requests. -/
theorem run_invariant (P : Data → Prop) (Q : Op → Prop)
    (hstep : ∀ data op, Q op → P data → P (handle data op).2) :
    ∀ (ops : List Op) (data : Data), P data → (∀ op ∈ ops, Q op) → P (run data ops) := by
  intro ops
  induction ops with
  | nil => intro data h _; exact h
  | cons op ops ih =>
    intro data h hq
    exact ih _ (hstep data op (hq op (List.mem_cons_self _ _)) h)
      (fun o ho => hq o (List.mem_cons_of_mem _ ho))

theorem users_setUser (data : Data) (uuid : String) (user : User) (k : UserKey) :
    (setUser data uuid user).users k = if k.1 = uuid then some user else data.users k := rfl

theorem users_removeUser (data : Data) (uuid : String) (k : UserKey) :
    (removeUser data uuid).users k = if k.1 = uuid then none else data.users k := rfl

theorem users_setCount (data : Data) (d : Int) (v : Nat) :
    (setCount data d v).users = data.users := rfl

/-- Every request keeps the completed lists free of duplicates. -/
theorem noDuplicates_handle {data : Data} (h : NoDuplicates data) (op : Op) :
    NoDuplicates (handle data op).2 := by
  rcases handle_cases data op with hs | ⟨name, rnd, now, _, hs⟩ |
    ⟨u, dn, now, usr, _, hu, hnot, hs⟩ | ⟨u, _, hs⟩
  · rw [hs]; exact h
  · rw [hs]
    intro k user hk
    rw [users_setUser] at hk
    split at hk
    · cases hk; exact List.nodup_nil
    · exact h k user hk
  · rw [hs]
    obtain ⟨hkey, hown⟩ := getUserProp_own hu
    intro k user hk
    rw [users_setCount, users_setUser] at hk
    split at hk
    · cases hk
      have hnd := h _ usr hown
      show (usr.completed ++ [dn]).Nodup
      rw [List.nodup_append]
      exact ⟨hnd, List.nodup_singleton dn, by
        intro a ha hb
        rw [List.mem_singleton] at hb
        subst hb
        exact hnot ha⟩
    · exact h k user hk
  · rw [hs]
    intro k user hk
    rw [users_removeUser] at hk
    split at hk
    · cases hk
    · exact h k user hk

/-- Every request that carries a positive day keeps the completed days positive. -/
theorem daysPositive_handle {data : Data} (h : DaysPositive data) {op : Op}
    (hop : positiveDay op = true) : DaysPositive (handle data op).2 := by
  rcases handle_cases data op with hs | ⟨name, rnd, now, _, hs⟩ |
    ⟨u, dn, now, usr, hopeq, hu, hnot, hs⟩ | ⟨u, _, hs⟩
  · rw [hs]; exact h
  · rw [hs]
    intro k user hk
    rw [users_setUser] at hk
    split at hk
    · cases hk; intro d hd; simp at hd
    · exact h k user hk
  · rw [hs]
    obtain ⟨hkey, hown⟩ := getUserProp_own hu
    subst hopeq
    have hdn : 1 ≤ dn := by simpa [positiveDay] using hop
    intro k user hk
    rw [users_setCount, users_setUser] at hk
    split at hk
    · cases hk
      intro d hd
      rcases List.mem_append.1 hd with hd | hd
      · exact h _ usr hown d hd
      · rw [List.mem_singleton] at hd
        rw [hd]; exact hdn
    · exact h k user hk
  · rw [hs]
    intro k user hk
    rw [users_removeUser] at hk
    split at hk
    · cases hk
    · exact h k user hk

/-- No request removes or lowers a counter. -/
theorem globalCounts_handle_mono (data : Data) (op : Op) (d : Int) (v : Nat)
    (h : data.globalCounts d = some v) :
    ∃ w, (handle data op).2.globalCounts d = some w ∧ v ≤ w := by
  rcases handle_cases data op with hs | ⟨name, rnd, now, _, hs⟩ |
    ⟨u, dn, now, usr, _, hu, hnot, hs⟩ | ⟨u, _, hs⟩
  · rw [hs]; exact ⟨v, h, le_refl v⟩
  · rw [hs]; exact ⟨v, h, le_refl v⟩
  · rw [hs]
    by_cases hd : d = dn
    · subst hd
      refine ⟨countOrZero data d + 1, by simp [setCount], ?_⟩
      simp [countOrZero, h]
    · exact ⟨v, by simpa [setCount, setUser, hd] using h, le_refl v⟩
  · rw [hs]; exact ⟨v, h, le_refl v⟩

/-! ## Monotone counters, completed lists, the gate over time -/

/-- C11 (counts never decrease).  If day `d` has an entry in `globalCounts`,
then after any request (create-user, get-user, complete-day, global-count,
delete-user) it still has one, with a value at least as large; the all-counts
query returns the store unchanged, so the entry is the same after it. -/
theorem counts_never_decrease (data : Data) (op : Op) (d : Int) (v : Nat)
    (h : data.globalCounts d = some v) :
    (∃ w, (handle data op).2.globalCounts d = some w ∧ v ≤ w) ∧
    (allCounts data).2.globalCounts d = some v :=
  ⟨globalCounts_handle_mono data op d v h, h⟩

/-- C11 at a store where day 1 has count 1: a second user's completion raises it
to 2, and a deletion leaves it at 1. -/
theorem counts_never_decrease_witness :
    sampleDataDone.globalCounts 1 = some 1 ∧
    (∃ w, (handle sampleDataDone (.deleteUser "u1")).2.globalCounts 1 = some w ∧ 1 ≤ w) :=
  ⟨rfl, (counts_never_decrease sampleDataDone (.deleteUser "u1") 1 1 rfl).1⟩

/-- C12 (no duplicate completions).  In every store reached from the initial
empty store by a sequence of requests, every user's completed list contains each
day at most once. -/
theorem no_duplicate_completions (ops : List Op) (k : UserKey) (user : User)
    (h : (run initialData ops).users k = some user) : user.completed.Nodup := by
  have hinv : NoDuplicates (run initialData ops) :=
    run_invariant NoDuplicates (fun _ => True)
      (fun data op _ hd => noDuplicates_handle hd op) ops initialData
      (by intro k user hk; simp [initialData] at hk) (fun _ _ => trivial)
  exact hinv k user h

/-- C12 on the history `sampleOps`: the surviving user has completed `[1]`. -/
theorem no_duplicate_completions_witness :
    ∃ (k : UserKey) (user : User),
      (run initialData sampleOps).users k = some user ∧ user.completed = [1] ∧
      user.completed.Nodup :=
  ⟨⟨"11111111-1111-4111-9111-111111111111", by decide⟩,
   ⟨"11111111-1111-4111-9111-111111111111", "Bob", 0, [1]⟩, rfl, rfl,
   no_duplicate_completions sampleOps ⟨"11111111-1111-4111-9111-111111111111", by decide⟩
     ⟨"11111111-1111-4111-9111-111111111111", "Bob", 0, [1]⟩ rfl⟩

/-- C13 as stated fails: a user who enrols and completes day 0 has the completed
list `[0]`, so not every completed day of a reachable store is positive. -/
theorem completed_day_not_positive :
    (completeDay (createUser initialData "Ann" zeroDraws 0).2
        "00000000-0000-4000-8000-000000000000" 0 0).1 = .completion "Lesson completed" 1 ∧
    getUserProp (run initialData dayZeroOps) "00000000-0000-4000-8000-000000000000" =
      .own ⟨"00000000-0000-4000-8000-000000000000", "Ann", 0, [0]⟩ ∧
    ¬ ∀ (ops : List Op) (k : UserKey) (user : User),
        (run initialData ops).users k = some user → ∀ d ∈ user.completed, 1 ≤ d := by
  refine ⟨by decide, by decide, ?_⟩
  intro h
  have := h dayZeroOps ⟨"00000000-0000-4000-8000-000000000000", by decide⟩
    ⟨"00000000-0000-4000-8000-000000000000", "Ann", 0, [0]⟩ rfl 0 (by simp)
  exact absurd this (by decide)

/-- C13, amended.  In every store reached from the initial empty store by
requests whose complete-day requests all carry a day number of at least 1,
every entry of every user's completed list is at least 1. -/
theorem completed_days_positive (ops : List Op)
    (hpos : ∀ op ∈ ops, positiveDay op = true) (k : UserKey) (user : User)
    (h : (run initialData ops).users k = some user) : ∀ d ∈ user.completed, 1 ≤ d := by
  have hinv : DaysPositive (run initialData ops) :=
    run_invariant DaysPositive (fun op => positiveDay op = true)
      (fun data op hq hd => daysPositive_handle hd hq) ops initialData
      (by intro k user hk; simp [initialData] at hk) hpos
  exact hinv k user h

/-- C13 amended, on the history `sampleOps`, whose complete-day requests carry
day 1. -/
theorem completed_days_positive_witness :
    (∀ op ∈ sampleOps, positiveDay op = true) ∧
    ∀ d ∈ ([1] : List Int), 1 ≤ d :=
  ⟨by decide,
   completed_days_positive sampleOps (by decide)
     ⟨"11111111-1111-4111-9111-111111111111", by decide⟩
     ⟨"11111111-1111-4111-9111-111111111111", "Bob", 0, [1]⟩ rfl⟩

/-- C17 (the gate is monotone in time).  For a stored user, a day that passes
the gating check `day ≤ 1 + floor((t - startDate) / 86400000)` at time `t` passes
it at every later time `t'`, and the handler does not answer
`Lesson not yet available` then. -/
theorem gate_monotone (data : Data) (uuid : String) (user : User) (dayNum t t' : Int)
    (h : getUserProp data uuid = .own user) (ht : t ≤ t')
    (hpass : dayNum ≤ 1 + ⌊((t - user.startDate : Int) : ℚ) / 86400000⌋) :
    dayNum ≤ 1 + ⌊((t' - user.startDate : Int) : ℚ) / 86400000⌋ ∧
    (completeDay data uuid dayNum t).1 ≠ .error 400 "Lesson not yet available" ∧
    (completeDay data uuid dayNum t').1 ≠ .error 400 "Lesson not yet available" := by
  rw [← allowedDay_eq_floor] at hpass ⊢
  have hmono := allowedDay_mono user.startDate ht
  have hpass' : dayNum ≤ allowedDay t' user.startDate := le_trans hpass hmono
  have key : ∀ now, dayNum ≤ allowedDay now user.startDate →
      (completeDay data uuid dayNum now).1 ≠ .error 400 "Lesson not yet available" := by
    intro now hle
    by_cases hc : dayNum ∈ user.completed
    · rw [completeDay_done h (not_lt.2 hle) hc]; simp
    · rw [completeDay_fresh h (not_lt.2 hle) hc]; simp
  exact ⟨hpass', key t hpass, key t' hpass'⟩

/-- C17 at a concrete store: day 2 is unlocked after one day and stays unlocked
after three. -/
theorem gate_monotone_witness :
    getUserProp sampleData "u1" = .own sampleUser ∧
    (completeDay sampleData "u1" 2 259200000).1 ≠ .error 400 "Lesson not yet available" :=
  ⟨by decide,
   (gate_monotone sampleData "u1" sampleUser 2 86400000 259200000 (by decide) (by decide)
     (by norm_num [sampleUser])).2.2⟩

/-! ## Two accounts completing the same day -/

/-- Two new completions of the same day by two different users, one after the
other. -/
theorem completeDay_twice_users {data : Data} {u1 u2 : String} {user1 user2 : User}
    {d a b : Int} (hne : u1 ≠ u2)
    (h1 : getUserProp data u1 = .own user1) (h2 : getUserProp data u2 = .own user2)
    (hg1 : ¬ d > allowedDay a user1.startDate) (hg2 : ¬ d > allowedDay b user2.startDate)
    (hn1 : d ∉ user1.completed) (hn2 : d ∉ user2.completed) :
    completeDay (completeDay data u1 d a).2 u2 d b =
      (.completion "Lesson completed" (countOrZero data d + 2),
       setCount
         (setUser (setUser data u1 { user1 with completed := user1.completed ++ [d] })
           u2 { user2 with completed := user2.completed ++ [d] })
         d (countOrZero data d + 2)) := by
  rw [completeDay_fresh h1 hg1 hn1]
  have h2' : getUserProp (setCount (setUser data u1
      { user1 with completed := user1.completed ++ [d] }) d (countOrZero data d + 1)) u2 =
      .own user2 := by
    rw [getUserProp_setCount, getUserProp_setUser_of_ne _ _ (Ne.symm hne), h2]
  rw [completeDay_fresh h2' hg2 hn2, countOrZero_setCount_self]
  refine Prod.ext rfl ?_
  show Data.mk _ _ = Data.mk _ _
  congr 1
  funext e
  simp only [setCount, setUser]
  split <;> rfl

theorem setUser_comm (data : Data) {u1 u2 : String} (hne : u1 ≠ u2) (user1 user2 : User) :
    setUser (setUser data u1 user1) u2 user2 = setUser (setUser data u2 user2) u1 user1 := by
  show Data.mk _ _ = Data.mk _ _
  congr 1
  funext k
  simp only [setUser]
  by_cases hk1 : k.1 = u1
  · have hk2 : k.1 ≠ u2 := fun h => hne (hk1.symm.trans h)
    simp [hk1, hne]
  · simp [hk1]

/-- C16 (no lost update across two accounts).  For two distinct stored users and
a day unlocked for both at time `t` and completed by neither, serving the two
complete-day requests one after the other, in either order and at any clock
values from `t` on, ends in the same store; there `globalCounts[d]` is the old
value (0 if absent) plus 2, so exactly 2 when the day had no counter, and the
second response reports that value. -/
theorem no_lost_update (data : Data) (u1 u2 : String) (user1 user2 : User)
    (d t a b a' b' : Int) (hne : u1 ≠ u2)
    (h1 : getUserProp data u1 = .own user1) (h2 : getUserProp data u2 = .own user2)
    (hg1 : d ≤ 1 + ⌊((t - user1.startDate : Int) : ℚ) / 86400000⌋)
    (hg2 : d ≤ 1 + ⌊((t - user2.startDate : Int) : ℚ) / 86400000⌋)
    (hn1 : d ∉ user1.completed) (hn2 : d ∉ user2.completed)
    (ha : t ≤ a) (hb : t ≤ b) (ha' : t ≤ a') (hb' : t ≤ b') :
    (completeDay (completeDay data u1 d a).2 u2 d b).2 =
      (completeDay (completeDay data u2 d a').2 u1 d b').2 ∧
    (completeDay (completeDay data u1 d a).2 u2 d b).2.globalCounts d =
      some ((data.globalCounts d).getD 0 + 2) ∧
    (data.globalCounts d = none →
      (completeDay (completeDay data u1 d a).2 u2 d b).2.globalCounts d = some 2) ∧
    (completeDay (completeDay data u1 d a).2 u2 d b).1 =
      .completion "Lesson completed" ((data.globalCounts d).getD 0 + 2) := by
  rw [← allowedDay_eq_floor] at hg1 hg2
  have g1 : ∀ x, t ≤ x → ¬ d > allowedDay x user1.startDate := fun x hx =>
    not_lt.2 (le_trans hg1 (allowedDay_mono _ hx))
  have g2 : ∀ x, t ≤ x → ¬ d > allowedDay x user2.startDate := fun x hx =>
    not_lt.2 (le_trans hg2 (allowedDay_mono _ hx))
  rw [completeDay_twice_users hne h1 h2 (g1 a ha) (g2 b hb) hn1 hn2,
    completeDay_twice_users (Ne.symm hne) h2 h1 (g2 a' ha') (g1 b' hb') hn2 hn1]
  refine ⟨?_, ?_, ?_, rfl⟩
  · rw [setUser_comm data hne]
  · simp [setCount, countOrZero]
  · intro hnone
    simp [setCount, countOrZero, hnone]

/-- C16 at a store with two fresh users completing day 1. -/
theorem no_lost_update_witness :
    getUserProp sampleTwoUsers "u1" = .own sampleUser ∧
    getUserProp sampleTwoUsers "u2" = .own sampleUserTwo ∧
    (completeDay (completeDay sampleTwoUsers "u1" 1 1).2 "u2" 1 2).2.globalCounts 1 = some 2 :=
  ⟨by decide, by decide,
   (no_lost_update sampleTwoUsers "u1" "u2" sampleUser sampleUserTwo 1 0 1 2 3 4 (by decide)
     (by decide) (by decide) (by norm_num [sampleUser]) (by norm_num [sampleUserTwo])
     (by decide) (by decide) (by decide) (by decide) (by decide) (by decide)).2.2.1 rfl⟩

/-! ## Counters cover the current completions -/

theorem hasCompleted_setCount (data : Data) (e : Int) (v : Nat) (k : String) (d : Int) :
    hasCompleted (setCount data e v) k d = hasCompleted data k d := rfl

theorem countP_le_succ_of_update {ks : List String} (hnd : ks.Nodup) (u : String)
    (p q : String → Bool) (h : ∀ k, k ≠ u → p k = q k) :
    ks.countP p ≤ ks.countP q + 1 := by
  by_cases hu : u ∈ ks
  · have := countP_update hnd hu p q h
    split at this <;> split at this <;> omega
  · have : ks.countP p = ks.countP q := by
      apply List.countP_congr
      intro k hk
      have hne : k ≠ u := by rintro rfl; exact hu hk
      rw [h k hne]
    omega

theorem countsCover_handle {data : Data} (h : CountsCover data) (op : Op) :
    CountsCover (handle data op).2 := by
  rcases handle_cases data op with hs | ⟨name, rnd, now, _, hs⟩ |
    ⟨u, dn, now, usr, _, hu, hnot, hs⟩ | ⟨u, _, hs⟩
  · rw [hs]; exact h
  · rw [hs]
    intro d ks hnd
    refine le_trans (List.countP_mono_left ?_) (h d ks hnd)
    intro k _ hk
    by_cases hku : k = generateUUID rnd
    · subst hku
      simp [hasCompleted, getUserProp_setUser_self _ _ (generateUUID_not_prototype rnd)] at hk
    · rwa [hasCompleted_congr (getUserProp_setUser_of_ne _ _ hku)] at hk
  · rw [hs]
    obtain ⟨hkey, _⟩ := getUserProp_own hu
    intro d ks hnd
    have hother : ∀ k, k ≠ u →
        hasCompleted (setCount (setUser data u { usr with completed := usr.completed ++ [dn] })
          dn (countOrZero data dn + 1)) k d = hasCompleted data k d := by
      intro k hk
      rw [hasCompleted_setCount, hasCompleted_congr (getUserProp_setUser_of_ne _ _ hk)]
    by_cases hd : d = dn
    · subst hd
      rw [countOrZero_setCount_self]
      exact le_trans (countP_le_succ_of_update hnd u _ _ hother)
        (Nat.succ_le_succ (h d ks hnd))
    · rw [countOrZero_setCount_of_ne _ _ hd, countOrZero_setUser]
      refine le_trans (le_of_eq (List.countP_congr ?_)) (h d ks hnd)
      intro k _
      by_cases hk : k = u
      · subst hk
        rw [hasCompleted_setCount, hasCompleted, hasCompleted,
          getUserProp_setUser_self _ _ hkey, hu]
        simp [hd]
      · rw [hother k hk]
  · rw [hs]
    intro d ks hnd
    refine le_trans (List.countP_mono_left ?_) (h d ks hnd)
    intro k _ hk
    by_cases hku : k = u
    · subst hku
      rw [hasCompleted_of_not_own (getUserProp_removeUser_self_ne_own data k)] at hk
      cases hk
    · rwa [hasCompleted_congr (getUserProp_removeUser_of_ne _ hku)] at hk

theorem countsCover_run (ops : List Op) : CountsCover (run initialData ops) :=
  run_invariant CountsCover (fun _ => True) (fun _ op _ hd => countsCover_handle hd op) ops initialData
    (by
      intro d ks _
      have : ks.countP (fun k => hasCompleted initialData k d) = 0 := by
        rw [List.countP_eq_zero]
        intro k _
        simp [hasCompleted_of_not_own (getUserProp_initialData_ne_own k)]
      omega)
    (fun _ _ => trivial)

theorem getUserProp_of_users {data : Data} {k : UserKey} {user : User}
    (h : data.users k = some user) : getUserProp data k.1 = .own user := by
  simp [getUserProp, k.2, h]

theorem countsCover_one_le {data : Data} (h : CountsCover data) {uuid : String} {user : User}
    {d : Int} (hu : getUserProp data uuid = .own user) (hd : d ∈ user.completed) :
    1 ≤ countOrZero data d := by
  have := h d [uuid] (List.nodup_singleton _)
  simpa [hasCompleted, hu, hd] using this

/-- C18 (the `|| 0` fallback is unreachable from a fresh store).  In every store
reached from the initial empty store: when day `d` is in a stored user's
completed list, `globalCounts[d]` is present and at least 1; over any set of
distinct identifiers, the users that have `d` in their completed list are no
more than `globalCounts[d]`; and every complete-day response for `d`, new or
`Already completed`, reports a count of at least 1. -/
theorem fallback_unreachable (ops : List Op) (d : Int) :
    (∀ (k : UserKey) (user : User), (run initialData ops).users k = some user →
      d ∈ user.completed →
      ∃ c, (run initialData ops).globalCounts d = some c ∧ 1 ≤ c) ∧
    (∀ ks : List String, ks.Nodup →
      ks.countP (fun k => hasCompleted (run initialData ops) k d) ≤
        ((run initialData ops).globalCounts d).getD 0) ∧
    (∀ (uuid : String) (now : Int) (msg : String) (c : Nat),
      (completeDay (run initialData ops) uuid d now).1 = .completion msg c → 1 ≤ c) := by
  have hinv := countsCover_run ops
  refine ⟨?_, fun ks hnd => hinv d ks hnd, ?_⟩
  · intro k user hk hd
    have h1 := countsCover_one_le hinv (getUserProp_of_users hk) hd
    unfold countOrZero at h1
    cases hc : (run initialData ops).globalCounts d with
    | none => simp [hc] at h1
    | some c => exact ⟨c, rfl, by simpa [hc] using h1⟩
  · intro uuid now msg c hresp
    cases hs : getUserProp (run initialData ops) uuid with
    | undefined => simp [completeDay, hs] at hresp
    | inherited n => simp [completeDay, hs] at hresp
    | own user =>
      by_cases hg : d > allowedDay now user.startDate
      · rw [completeDay_gated hs hg] at hresp
        simp at hresp
      · by_cases hc : d ∈ user.completed
        · rw [completeDay_done hs hg hc] at hresp
          simp only [Response.completion.injEq] at hresp
          rw [← hresp.2]
          exact countsCover_one_le hinv hs hc
        · rw [completeDay_fresh hs hg hc] at hresp
          simp only [Response.completion.injEq] at hresp
          omega

/-- C18 on the history `sampleOps`: day 1 is in the surviving user's list and
has a counter of at least 1. -/
theorem fallback_unreachable_witness :
    ∃ c, (run initialData sampleOps).globalCounts 1 = some c ∧ 1 ≤ c :=
  (fallback_unreachable sampleOps 1).1
    ⟨"11111111-1111-4111-9111-111111111111", by decide⟩
    ⟨"11111111-1111-4111-9111-111111111111", "Bob", 0, [1]⟩ rfl (by decide)

/-! ## Enrolment and the set of users -/

theorem userKeys_setUser (data : Data) (k : UserKey) (user : User) :
    userKeys (setUser data k.1 user) = insert k (userKeys data) := by
  ext j
  simp only [userKeys, Set.mem_setOf_eq, Set.mem_insert_iff, users_setUser]
  by_cases hj : j.1 = k.1
  · simp [hj, Subtype.ext hj]
  · have : j ≠ k := fun e => hj (congrArg Subtype.val e)
    simp [hj, this]

theorem userKeys_initialData : userKeys initialData = ∅ := by
  ext j
  simp [userKeys, initialData]

/-- C14 as stated fails: when a create request draws the identifier of a stored
user, it succeeds all the same and the stored user is replaced. -/
theorem generated_uuid_may_collide :
    getUserProp (run initialData [.createUser "Ann" zeroDraws 0])
        "00000000-0000-4000-8000-000000000000" =
      .own ⟨"00000000-0000-4000-8000-000000000000", "Ann", 0, []⟩ ∧
    (createUser (run initialData [.createUser "Ann" zeroDraws 0]) "Bob" zeroDraws 1).1 =
      .userJson ⟨"00000000-0000-4000-8000-000000000000", "Bob", 1, []⟩ ∧
    getUserProp (run initialData collidingOps) "00000000-0000-4000-8000-000000000000" =
      .own ⟨"00000000-0000-4000-8000-000000000000", "Bob", 1, []⟩ ∧
    ¬ ∀ (data : Data) (name : String) (rnd : Nat → Fin 16) (now : Int) (user : User),
        (createUser data name rnd now).1 = .userJson user →
        (∀ old : User, getUserProp data user.uuid ≠ .own old) ∧
        ∀ (k : UserKey) (old : User), data.users k = some old →
          (createUser data name rnd now).2.users k = some old := by
  refine ⟨by decide, by decide, by decide, ?_⟩
  intro h
  have := h (createUser initialData "Ann" zeroDraws 0).2 "Bob" zeroDraws 1
    ⟨"00000000-0000-4000-8000-000000000000", "Bob", 1, []⟩ rfl
  exact this.1 ⟨"00000000-0000-4000-8000-000000000000", "Ann", 0, []⟩ (by decide)

/-- C14, amended.  For a successful create-user call whose generated uuid is
not already a key of `users`: every user stored before is still stored,
unchanged, `globalCounts` is unchanged, and the number of users grows by exactly
one. -/
theorem create_user_frame (data : Data) (name : String) (rnd : Nat → Fin 16) (now : Int)
    (user : User) (hok : (createUser data name rnd now).1 = .userJson user)
    (hnew : ∀ old : User, getUserProp data user.uuid ≠ .own old)
    (hfin : (userKeys data).Finite) :
    (∀ (k : UserKey) (old : User), data.users k = some old →
      (createUser data name rnd now).2.users k = some old) ∧
    (createUser data name rnd now).2.globalCounts = data.globalCounts ∧
    (userKeys (createUser data name rnd now).2).ncard = (userKeys data).ncard + 1 := by
  obtain ⟨_, hu, hs⟩ := createUser_ok_inv (show createUser data name rnd now =
    (.userJson user, (createUser data name rnd now).2) from Prod.ext hok rfl)
  have hid : user.uuid = generateUUID rnd := by rw [hu]
  rw [hid] at hnew
  rw [hs]
  refine ⟨?_, rfl, ?_⟩
  · intro k old hk
    rw [users_setUser]
    have hne : k.1 ≠ generateUUID rnd := by
      intro e
      apply hnew old
      rw [← e]
      exact getUserProp_of_users hk
    simp [hne, hk]
  · have hkey := userKeys_setUser data ⟨generateUUID rnd, generateUUID_not_prototype rnd⟩ user
    rw [hkey]
    apply Set.ncard_insert_of_not_mem _ hfin
    intro hmem
    simp only [userKeys, Set.mem_setOf_eq] at hmem
    obtain ⟨old, hold⟩ := Option.isSome_iff_exists.1 hmem
    exact hnew old (getUserProp_of_users hold)

/-- C14 amended, on the empty store: the first enrolment makes one user. -/
theorem create_user_frame_witness :
    (createUser initialData "Ann" zeroDraws 0).1 =
        .userJson ⟨"00000000-0000-4000-8000-000000000000", "Ann", 0, []⟩ ∧
    (userKeys (createUser initialData "Ann" zeroDraws 0).2).ncard =
        (userKeys initialData).ncard + 1 :=
  ⟨rfl,
   (create_user_frame initialData "Ann" zeroDraws 0
     ⟨"00000000-0000-4000-8000-000000000000", "Ann", 0, []⟩ rfl
     (fun old => getUserProp_initialData_ne_own _ old)
     (by rw [userKeys_initialData]; exact Set.finite_empty)).2.2⟩

/-! ## The shape and the number of generated identifiers -/

/-- The characters of a generated identifier, draw by draw. -/
theorem generateUUID_data (rnd : Nat → Fin 16) :
    (generateUUID rnd).data =
    [hexDigit (rnd 0).val, hexDigit (rnd 1).val, hexDigit (rnd 2).val, hexDigit (rnd 3).val,
     hexDigit (rnd 4).val, hexDigit (rnd 5).val, hexDigit (rnd 6).val, hexDigit (rnd 7).val,
     '-', hexDigit (rnd 8).val, hexDigit (rnd 9).val, hexDigit (rnd 10).val,
     hexDigit (rnd 11).val, '-', '4', hexDigit (rnd 12).val, hexDigit (rnd 13).val,
     hexDigit (rnd 14).val, '-', hexDigit ((rnd 15).val &&& 0x3 ||| 0x8),
     hexDigit (rnd 16).val, hexDigit (rnd 17).val, hexDigit (rnd 18).val, '-',
     hexDigit (rnd 19).val, hexDigit (rnd 20).val, hexDigit (rnd 21).val,
     hexDigit (rnd 22).val, hexDigit (rnd 23).val, hexDigit (rnd 24).val,
     hexDigit (rnd 25).val, hexDigit (rnd 26).val, hexDigit (rnd 27).val,
     hexDigit (rnd 28).val, hexDigit (rnd 29).val, hexDigit (rnd 30).val] := rfl

theorem isLowerHex_hexDigit (v : Fin 16) : isLowerHex (hexDigit v.val) = true := by
  revert v; decide

theorem isLowerHex_hexDigit_y (v : Fin 16) :
    isLowerHex (hexDigit (v.val &&& 0x3 ||| 0x8)) = true := by
  revert v; decide

theorem hexDigit_y_mem (v : Fin 16) :
    hexDigit (v.val &&& 0x3 ||| 0x8) ∈ ['8', '9', 'a', 'b'] := by
  revert v; decide

theorem hexDigit_inj (a b : Fin 16) : hexDigit a.val = hexDigit b.val ↔ a = b := by
  revert a b; decide

theorem hexDigit_y_inj (a b : Fin 16) :
    hexDigit (a.val &&& 0x3 ||| 0x8) = hexDigit (b.val &&& 0x3 ||| 0x8) ↔
      a.val % 4 = b.val % 4 := by
  revert a b; decide

theorem generateUUID_shape (rnd : Nat → Fin 16) :
    (generateUUID rnd).length = 36 ∧
    (∀ i ∈ [8, 13, 18, 23], (generateUUID rnd).data[i]? = some '-') ∧
    (generateUUID rnd).data[14]? = some '4' ∧
    (∃ c ∈ ['8', '9', 'a', 'b'], (generateUUID rnd).data[19]? = some c) ∧
    (∀ (i : Nat) (c : Char), (generateUUID rnd).data[i]? = some c →
      i ∉ [8, 13, 18, 23] → isLowerHex c = true) := by
  refine ⟨rfl, ?_, ?_, ?_, ?_⟩
  · intro i hi
    simp only [List.mem_cons, List.mem_singleton, List.not_mem_nil, or_false] at hi
    rcases hi with rfl | rfl | rfl | rfl <;> rfl
  · rfl
  · exact ⟨_, hexDigit_y_mem (rnd 15), rfl⟩
  · intro i c hc hi
    rw [generateUUID_data] at hc
    by_cases h36 : i < 36
    · interval_cases i <;>
        first
        | (exfalso; exact hi (by decide))
        | (simp only [List.getElem?_cons_zero, List.getElem?_cons_succ, Option.some.injEq] at hc
           subst hc
           first
           | exact isLowerHex_hexDigit _
           | exact isLowerHex_hexDigit_y _
           | decide)
    · rw [List.getElem?_eq_none (by simp; omega)] at hc
      cases hc

theorem padDraws_normalizeDraws_of_ne (draws : Fin 31 → Fin 16) {i : Nat} (hi : i ≠ 15) :
    padDraws (normalizeDraws draws) i = padDraws draws i := by
  unfold padDraws
  by_cases h : i < 31
  · have hne : (⟨i, h⟩ : Fin 31) ≠ 15 := fun e => hi (congrArg Fin.val e)
    simp [h, normalizeDraws, hne]
  · simp [h]

theorem padDraws_normalizeDraws_y (draws : Fin 31 → Fin 16) :
    (padDraws (normalizeDraws draws) 15).val = (padDraws draws 15).val % 4 := rfl

theorem generateUUID_normalizeDraws (draws : Fin 31 → Fin 16) :
    generateUUID (padDraws (normalizeDraws draws)) = generateUUID (padDraws draws) := by
  apply String.ext
  rw [generateUUID_data, generateUUID_data]
  have hy : hexDigit ((padDraws (normalizeDraws draws) 15).val &&& 0x3 ||| 0x8) =
      hexDigit ((padDraws draws 15).val &&& 0x3 ||| 0x8) := by
    rw [hexDigit_y_inj, padDraws_normalizeDraws_y]
    omega
  rw [hy]
  simp only [padDraws_normalizeDraws_of_ne draws (by decide : (0 : Nat) ≠ 15)]
  repeat rw [padDraws_normalizeDraws_of_ne draws (by decide)]

theorem generateUUID_padDraws_inj {g g' : Fin 31 → Fin 16}
    (hg : (g 15).val < 4) (hg' : (g' 15).val < 4)
    (h : generateUUID (padDraws g) = generateUUID (padDraws g')) : g = g' := by
  have hd := congrArg String.data h
  rw [generateUUID_data, generateUUID_data] at hd
  simp only [List.cons.injEq, hexDigit_inj, hexDigit_y_inj, and_true, true_and] at hd
  simp only [padDraws, Nat.reduceLT, dite_true] at hd
  have h15 : g 15 = g' 15 := by
    apply Fin.ext
    have := hd.2.2.2.2.2.2.2.2.2.2.2.2.2.2.2.1
    have e1 : (g 15).val % 4 = (g 15).val := Nat.mod_eq_of_lt hg
    have e2 : (g' 15).val % 4 = (g' 15).val := Nat.mod_eq_of_lt hg'
    rw [← e1, ← e2]
    exact this
  funext i
  fin_cases i <;> first | exact h15 | simp_all

theorem prod_widths : (∏ i : Fin 31, (if i = 15 then 4 else 16 : Nat)) = 2 ^ 122 := by
  decide

set_option maxRecDepth 8000

theorem card_normalized :
    (Finset.univ.filter (fun g : Fin 31 → Fin 16 => (g 15).val < 4)).card = 2 ^ 122 := by
  have hS : Finset.univ.filter (fun g : Fin 31 → Fin 16 => (g 15).val < 4) =
      Fintype.piFinset (fun i : Fin 31 =>
        if i = 15 then Finset.univ.filter (fun x : Fin 16 => x.val < 4) else Finset.univ) := by
    ext g
    simp only [Finset.mem_filter, Finset.mem_univ, true_and, Fintype.mem_piFinset]
    constructor
    · intro h i
      by_cases hi : i = 15
      · subst hi; simp [h]
      · simp [hi]
    · intro h
      simpa using h 15
  rw [hS, Fintype.card_piFinset]
  have hw : ∀ i : Fin 31,
      (if i = 15 then Finset.univ.filter (fun x : Fin 16 => x.val < 4) else Finset.univ).card =
        (if i = 15 then 4 else 16 : Nat) := by
    intro i
    by_cases hi : i = 15
    · simp only [hi, if_true]; decide
    · simp [hi]
  simp only [hw]
  exact prod_widths

theorem uuidOutputs_card : uuidOutputs.card = 2 ^ 122 := by
  have himg : uuidOutputs =
      (Finset.univ.filter (fun g : Fin 31 → Fin 16 => (g 15).val < 4)).image
        (fun draws => generateUUID (padDraws draws)) := by
    ext s
    simp only [uuidOutputs, Finset.mem_image, Finset.mem_univ, true_and, Finset.mem_filter]
    constructor
    · rintro ⟨f, rfl⟩
      refine ⟨normalizeDraws f, ?_, generateUUID_normalizeDraws f⟩
      show (normalizeDraws f 15).val < 4
      simp only [normalizeDraws, if_true]
      exact Nat.mod_lt _ (by decide)
    · rintro ⟨g, _, rfl⟩
      exact ⟨g, rfl⟩
  rw [himg, Finset.card_image_of_injOn, card_normalized]
  intro g hg g' hg' h
  simp only [Finset.coe_filter, Finset.mem_univ, true_and, Set.mem_setOf_eq] at hg hg'
  exact generateUUID_padDraws_inj hg hg' h

/-- `generateUUID` reads the first 31 draws only. -/
theorem generateUUID_congr {rnd rnd' : Nat → Fin 16} (h : ∀ i, i < 31 → rnd i = rnd' i) :
    generateUUID rnd = generateUUID rnd' := by
  apply String.ext
  rw [generateUUID_data, generateUUID_data]
  rw [h 0 (by decide), h 1 (by decide), h 2 (by decide), h 3 (by decide), h 4 (by decide),
    h 5 (by decide), h 6 (by decide), h 7 (by decide), h 8 (by decide), h 9 (by decide),
    h 10 (by decide), h 11 (by decide), h 12 (by decide), h 13 (by decide), h 14 (by decide),
    h 15 (by decide), h 16 (by decide), h 17 (by decide), h 18 (by decide), h 19 (by decide),
    h 20 (by decide), h 21 (by decide), h 22 (by decide), h 23 (by decide), h 24 (by decide),
    h 25 (by decide), h 26 (by decide), h 27 (by decide), h 28 (by decide), h 29 (by decide),
    h 30 (by decide)]

theorem generateUUID_mem_uuidOutputs (rnd : Nat → Fin 16) : generateUUID rnd ∈ uuidOutputs := by
  refine Finset.mem_image.2 ⟨fun i => rnd i.val, Finset.mem_univ _, ?_⟩
  apply generateUUID_congr
  intro i hi
  simp [padDraws, hi]

/-- C15 (identifier shape and 122 bits).  With every draw an arbitrary integer in
0..15, `generateUUID` returns 36 characters: `-` at positions 8, 13, 18 and 23,
`4` at position 14, one of `8`, `9`, `a`, `b` at position 19, and lower-case
hexadecimal digits everywhere else.  It is one of the identifiers obtained from
the sequences of 31 draws, and those are exactly `2 ^ 122` distinct strings. -/
theorem uuid_shape_and_count (rnd : Nat → Fin 16) :
    (generateUUID rnd).length = 36 ∧
    (∀ i ∈ [8, 13, 18, 23], (generateUUID rnd).data[i]? = some '-') ∧
    (generateUUID rnd).data[14]? = some '4' ∧
    (∃ c ∈ ['8', '9', 'a', 'b'], (generateUUID rnd).data[19]? = some c) ∧
    (∀ (i : Nat) (c : Char), (generateUUID rnd).data[i]? = some c →
      i ∉ [8, 13, 18, 23] → isLowerHex c = true) ∧
    generateUUID rnd ∈
      Finset.univ.image (fun draws : Fin 31 → Fin 16 => generateUUID (padDraws draws)) ∧
    (Finset.univ.image
      (fun draws : Fin 31 → Fin 16 => generateUUID (padDraws draws))).card = 2 ^ 122 := by
  obtain ⟨h1, h2, h3, h4, h5⟩ := generateUUID_shape rnd
  exact ⟨h1, h2, h3, h4, h5, generateUUID_mem_uuidOutputs rnd, uuidOutputs_card⟩

end Server
